import Mathlib

/-!
Verification development for the off-chain pool math and quoting engine of an
AMM client library.  The stable-pool and linear-pool classes are translated
from the TypeScript source (`src/entities/pools/stable/index.ts` and the
linear-pool file).  Library modules the source imports but that are not part
of the source tree (the fixed-point `MathSol` helpers, the `TokenAmount`
class, the stable-pool math module and the preminted-supply constants) are
modelled from the specification, as marked on each definition.

All integer amounts are JS `bigint` values; they are modelled as `Nat`
(on-chain amounts are unsigned); the virtual-balance field, which is the one
place where a subtraction can genuinely go negative, is modelled as `Int`.
Fallible code (a TS `throw`) is modelled with `Except Err`.
-/

/-- Error taxonomy of the engine (spec section 7) together with the failure a
JS property access on `undefined` raises (`typeError`), which the source hits
when it indexes an array at `-1`. -/
inductive Err where
  | unknownToken
  | exceedsPoolLimit
  | insufficientAmount
  | invalidAmount
  | missingPriceRate
  | invariantDidNotConverge
  | balanceDidNotConverge
  | outOfBounds
  | typeError
  | invalidPoolId
deriving DecidableEq, Repr

/-- WAD fixed-point scale of ten to the eighteenth. -/
def WAD : Nat := 1000000000000000000

namespace MathSol

/-- Modelled from the spec: WAD-scaled multiply rounded toward zero. -/
def mulDownFixed (a b : Nat) : Nat := a * b / WAD

/-- Modelled from the spec: WAD-scaled multiply rounded toward plus infinity
(zero stays zero). -/
def mulUpFixed (a b : Nat) : Nat :=
  let p := a * b
  if p = 0 then 0 else (p - 1) / WAD + 1

/-- Modelled from the spec: WAD-scaled divide rounded toward zero. -/
def divDownFixed (a b : Nat) : Nat := if a = 0 then 0 else a * WAD / b

/-- Modelled from the spec: WAD-scaled divide rounded toward plus infinity. -/
def divUpFixed (a b : Nat) : Nat := if a = 0 then 0 else (a * WAD - 1) / b + 1

/-- Modelled from the spec: plain integer divide rounded toward plus
infinity, used inside the stable math routines. -/
def divUp (a b : Nat) : Nat := if a = 0 then 0 else (a - 1) / b + 1

/-- Modelled from the spec: complement `WAD - x`, saturating at zero. -/
def complementFixed (x : Nat) : Nat := if x < WAD then WAD - x else 0

end MathSol

/-- Numeric value of a decimal digit, or `none` for any other character. -/
def digitVal (c : Char) : Option Nat :=
  if c.isDigit then some (c.toNat - 48) else none

/-- Reads a run of decimal digits most-significant first; fails on any
non-digit character. -/
def readDigits : List Char → Nat → Option Nat
  | [], acc => some acc
  | c :: cs, acc =>
    match digitVal c with
    | some d => readDigits cs (acc * 10 + d)
    | none => none

/-- Splits a character list at the first dot. -/
def splitOnDot : List Char → (List Char × Option (List Char))
  | [] => ([], none)
  | c :: rest =>
    if c = '.' then ([], some rest)
    else
      let p := splitOnDot rest
      (c :: p.1, p.2)

/-- Modelled from the spec: parse of a human decimal string into an integer
amount with the given number of decimals (the `fromHuman` ingestion path).
Fails on a negative sign, a non-digit character, an empty integer part or a
fraction longer than the precision. -/
def parseDecimalUnits (s : String) (decimals : Nat) : Option Nat :=
  let p := splitOnDot s.toList
  match p.1, p.2 with
  | [], _ => none
  | ip, none => readDigits ip 0 |>.map (· * 10 ^ decimals)
  | ip, some fp =>
    match readDigits ip 0 with
    | none => none
    | some i =>
      if fp.length > decimals then none
      else
        match readDigits fp 0 with
        | none => none
        | some f => some (i * 10 ^ decimals + f * 10 ^ (decimals - fp.length))

/-- Modelled from the spec: the 18-decimal parse used for rates, fees and
total supplies (named `unsafeFastParseEther` in the source imports). -/
def fastParseEther (s : String) : Option Nat := parseDecimalUnits s 18

/-- Modelled from the spec: parse of a decimal integer string in the style of
the JS `BigInt` constructor (an empty string is zero, any non-digit fails). -/
def parseBigIntStr (s : String) : Option Nat := readDigits s.toList 0

/-- Token identity: chain identifier, address and decimal precision.
Equality is by chain and address (spec section 3). -/
structure Token where
  chainId : Nat
  address : String
  decimals : Nat
deriving DecidableEq, Repr

/-- Token equality test used by the pools, comparing chain and address. -/
def Token.isEqual (a b : Token) : Bool :=
  a.chainId == b.chainId && a.address == b.address

/-- Scaling factor from a token's native decimals to 18 decimals. -/
def Token.scalar (t : Token) : Nat := 10 ^ (18 - t.decimals)

/-- Division rounded toward plus infinity. -/
def ceilDiv (a b : Nat) : Nat := (a + b - 1) / b

/-- Modelled from the spec: a ScaledAmount, pairing a raw integer amount in
the token's native decimals with its derived 18-decimal normalization
(`TokenAmount` in the source imports). -/
structure TokenAmount where
  token : Token
  amount : Nat
deriving DecidableEq, Repr

/-- Scaling factor of the carried token. -/
def TokenAmount.scalar (a : TokenAmount) : Nat := a.token.scalar

/-- The 18-decimal normalized amount of a plain token amount. -/
def TokenAmount.scale18 (a : TokenAmount) : Nat := a.amount * a.scalar

/-- Modelled from the spec: construction from a raw on-chain integer. -/
def TokenAmount.fromRawAmount (t : Token) (raw : Nat) : TokenAmount := ⟨t, raw⟩

/-- Modelled from the spec: conversion from the normalized space back to the
raw space with an explicit rounding direction. -/
def TokenAmount.fromScale18Amount (t : Token) (s18 : Nat) (roundUp : Bool) :
    TokenAmount :=
  ⟨t, if roundUp then ceilDiv s18 t.scalar else s18 / t.scalar⟩

/-- Lifts an optional parse result into the fallible computation, the
translation of a parse whose missing result throws. -/
def optionToExcept {α} (o : Option α) (e : Err) : Except Err α :=
  match o with
  | some v => .ok v
  | none => .error e

/-- Modelled from the spec: construction from a human decimal string; a
malformed string fails with `InvalidAmount`. -/
def TokenAmount.fromHumanAmount (t : Token) (s : String) :
    Except Err TokenAmount := do
  let raw ← optionToExcept (parseDecimalUnits s t.decimals) .invalidAmount
  pure ⟨t, raw⟩

/-- Modelled from the spec: WAD multiply in normalized space, result rounded
down into raw space. -/
def TokenAmount.mulDownFixed (a : TokenAmount) (f : Nat) : TokenAmount :=
  TokenAmount.fromScale18Amount a.token (MathSol.mulDownFixed a.scale18 f) false

/-- Modelled from the spec: WAD multiply in normalized space, result rounded
up into raw space. -/
def TokenAmount.mulUpFixed (a : TokenAmount) (f : Nat) : TokenAmount :=
  TokenAmount.fromScale18Amount a.token (MathSol.mulUpFixed a.scale18 f) true

/-- Modelled from the spec: WAD divide in normalized space, result rounded
down into raw space. -/
def TokenAmount.divDownFixed (a : TokenAmount) (f : Nat) : TokenAmount :=
  TokenAmount.fromScale18Amount a.token (MathSol.divDownFixed a.scale18 f) false

/-- Modelled from the spec: WAD divide in normalized space, result rounded up
into raw space. -/
def TokenAmount.divUpFixed (a : TokenAmount) (f : Nat) : TokenAmount :=
  TokenAmount.fromScale18Amount a.token (MathSol.divUpFixed a.scale18 f) true

/-- Modelled from the spec: subtraction; an underflow fails with
`InsufficientAmount`. -/
def TokenAmount.sub (a b : TokenAmount) : Except Err TokenAmount :=
  if a.amount < b.amount then .error .insufficientAmount
  else .ok ⟨a.token, a.amount - b.amount⟩

/-- JS `Array.prototype.findIndex`: index of the first match, `-1` if none. -/
def jsFindIndexAux {α} (p : α → Bool) : List α → Nat → Int
  | [], _ => -1
  | x :: xs, i => if p x then Int.ofNat i else jsFindIndexAux p xs (i + 1)

/-- JS `findIndex` over a list. -/
def jsFindIndex {α} (l : List α) (p : α → Bool) : Int := jsFindIndexAux p l 0

/-- JS indexed read followed by a property access: reading any property of
`arr[i]` for an out-of-range or negative `i` raises a TypeError. -/
def jsGet {α} (l : List α) (i : Int) : Except Err α :=
  match i with
  | .ofNat n =>
    match l.get? n with
    | some a => .ok a
    | none => .error .typeError
  | .negSucc _ => .error .typeError

/-- JS indexed write `arr[i] = v`: an in-range index updates the slot; a
negative index stores an invisible property, leaving the elements that the
math routines iterate over unchanged. -/
def jsSet {α} (l : List α) (i : Int) (v : α) : List α :=
  match i with
  | .ofNat n => l.set n v
  | .negSucc _ => l

/-- JS `splice(start, 1)`: removes one element at `start`, counting from the
end when `start` is negative. -/
def jsSpliceRemoveOne {α} (l : List α) (i : Int) : List α :=
  let len : Int := l.length
  let start : Int := if i < 0 then max (len + i) 0 else min i len
  l.eraseIdx start.toNat

/-- Stable insertion of an element into a list sorted ascending by key. -/
def insertByKey {α} (key : α → Int) (x : α) : List α → List α
  | [] => [x]
  | y :: ys => if key y < key x then y :: insertByKey key x ys else x :: y :: ys

/-- JS `Array.prototype.sort` with the comparator `(a, b) => key a - key b`:
a stable ascending sort by the key. -/
def jsSortOn {α} (key : α → Int) : List α → List α
  | [] => []
  | x :: xs => insertByKey key x (jsSortOn key xs)

/-- Boolean test that a list is ascending under an integer key. -/
def ascendingBy {α} (key : α → Int) : List α → Bool
  | [] => true
  | [_] => true
  | x :: y :: rest => key x ≤ key y && ascendingBy key (y :: rest)

/-- Map with a fallible function, stopping at the first failure; the
translation of a JS `Array.prototype.map` whose callback can throw. -/
def mapE {α β} (f : α → Except Err β) : List α → Except Err (List β)
  | [] => .ok []
  | x :: xs => do
    let y ← f x
    let ys ← mapE f xs
    .ok (y :: ys)

/-- Pool address extraction from a pool id: the first 42 characters of a
66-character id; any other length fails (`utils/pool.ts`). -/
def getPoolAddress (poolId : String) : Except Err String :=
  if poolId.length = 66 then .ok (⟨poolId.toList.take 42⟩ : String)
  else .error .invalidPoolId

/-- Modelled from the spec: the maximum (preminted) supply constant of a
composable-stable pool's own liquidity token (`PREMINTED_STABLE_BPT` in the
source imports), two to the power 111. -/
def PREMINTED_STABLE_BPT : Nat := 2 ^ 111

/-- Modelled from the spec: the maximum value of an unsigned 112-bit token
balance (`MAX_UINT112` in the source imports). -/
def MAX_UINT112 : Nat := 2 ^ 112 - 1

/-- The 0.99 WAD fraction `ALMOST_ONE` both pool files build with the ether
parser. -/
def ALMOST_ONE : Nat := 990000000000000000

/-- A member token of a stable pool: a token amount together with its
exchange rate; `isBpt` records whether the entry was built by the `BPT`
class (the pool's own liquidity token, rate fixed at WAD) or by the
`StablePoolToken` class. -/
structure SToken where
  token : Token
  amount : Nat
  rate : Nat
  isBpt : Bool
deriving DecidableEq, Repr

/-- Rate-adjusted 18-decimal balance of a stable pool token,
`amount * scalar * rate / WAD` rounded down. -/
def SToken.scale18 (t : SToken) : Nat := t.amount * t.token.scalar * t.rate / WAD

/-- Constructor of an ordinary stable pool token. -/
def mkStablePoolToken (t : Token) (amount rate : Nat) : SToken :=
  ⟨t, amount, rate, false⟩

/-- Constructor of the stable pool's own liquidity-token entry: rate WAD. -/
def mkStableBpt (t : Token) (amount : Nat) : SToken := ⟨t, amount, WAD, true⟩

/-- Virtual balance of a stable-pool liquidity-token entry: the preminted
maximum supply minus the held amount (a JS bigint subtraction, hence `Int`). -/
def SToken.virtualBalance (t : SToken) : Int :=
  (PREMINTED_STABLE_BPT : Int) - (t.amount : Int)

/-- Amplification precision divisor used by the stable math. -/
def AMP_PRECISION : Nat := 1000

/-- Absolute difference of two naturals. -/
def natDist (a b : Nat) : Nat := max a b - min a b

/-- Modelled from the spec: one Newton-Raphson update of the stable invariant
(the iterate map of section 4.5, parameterized by the amplification
coefficient times the token count). -/
def invariantStep (ampTimesTotal sum nTok : Nat) (balances : List Nat)
    (inv : Nat) : Nat :=
  let pD :=
    match balances with
    | [] => 0
    | b0 :: rest => rest.foldl (fun pd bj => pd * bj * nTok / inv) (b0 * nTok)
  (nTok * inv * inv + ampTimesTotal * sum * pD / AMP_PRECISION) /
    ((nTok + 1) * inv + (ampTimesTotal - AMP_PRECISION) * pD / AMP_PRECISION)

/-- Modelled from the spec: the bounded Newton iteration for the invariant;
terminates with the converged value when successive iterates differ by at
most one, and fails with `InvariantDidNotConverge` when the fuel (the fixed
maximum iteration count) is exhausted. -/
def invariantLoop (ampTimesTotal sum nTok : Nat) (balances : List Nat) :
    Nat → Nat → Except Err Nat
  | 0, _ => .error .invariantDidNotConverge
  | fuel + 1, inv =>
    let newInv := invariantStep ampTimesTotal sum nTok balances inv
    if natDist newInv inv ≤ 1 then .ok newInv
    else invariantLoop ampTimesTotal sum nTok balances fuel newInv

/-- Modelled from the spec: the stable-pool invariant solver.  `D` is
initialized to the sum of the balances and refined by at most 255 Newton
steps; a zero balance sum short-circuits to zero. -/
def _calculateInvariant (amp : Nat) (balances : List Nat) : Except Err Nat :=
  let sum := balances.foldl (· + ·) 0
  if sum = 0 then .ok 0
  else invariantLoop (amp * balances.length) sum balances.length balances 255 sum

/-- Modelled from the spec: the bounded Newton iteration that solves the
per-token balance equation at a fixed invariant. -/
def balanceLoop (c b invariant : Nat) : Nat → Nat → Except Err Nat
  | 0, _ => .error .balanceDidNotConverge
  | fuel + 1, tokenBalance =>
    let newBal :=
      MathSol.divUp (tokenBalance * tokenBalance + c)
        (2 * tokenBalance + b - invariant)
    if natDist newBal tokenBalance ≤ 1 then .ok newBal
    else balanceLoop c b invariant fuel newBal

/-- Modelled from the spec: solves, at a fixed invariant, the invariant
equation for the balance at `tokenIndex` given all other balances, via the
same Newton scheme as the invariant solver. -/
def _getTokenBalanceGivenInvariantAndAllOtherBalances (amp : Nat)
    (balances : List Nat) (invariant : Nat) (tokenIndex : Int) :
    Except Err Nat := do
  let nTok := balances.length
  let ampTimesTotal := amp * nTok
  let sum := balances.foldl (· + ·) 0
  let b0 ← jsGet balances 0
  let pD := (balances.drop 1).foldl
    (fun pd bj => pd * bj * nTok / invariant) (b0 * nTok)
  let bTok ← jsGet balances tokenIndex
  let sumRest := sum - bTok
  let inv2 := invariant * invariant
  let c := MathSol.divUp inv2 (ampTimesTotal * pD) * AMP_PRECISION * bTok
  let b := sumRest + invariant / ampTimesTotal * AMP_PRECISION
  balanceLoop c b invariant 255 (MathSol.divUp (inv2 + c) (invariant + b))

/-- Modelled from the spec: exact-in swap at a fixed invariant; adds the
input to the input-side balance, solves for the output-side balance and
returns the balance delta less one unit. -/
def _calcOutGivenIn (amp : Nat) (balances : List Nat) (iIn iOut : Int)
    (tokenAmountIn invariant : Nat) : Except Err Nat := do
  let bIn ← jsGet balances iIn
  let balances := jsSet balances iIn (bIn + tokenAmountIn)
  let finalBalanceOut ←
    _getTokenBalanceGivenInvariantAndAllOtherBalances amp balances invariant iOut
  let bOut ← jsGet balances iOut
  pure (bOut - finalBalanceOut - 1)

/-- Modelled from the spec: exact-out swap at a fixed invariant; removes the
output from the output-side balance, solves for the input-side balance and
returns the balance delta plus one unit. -/
def _calcInGivenOut (amp : Nat) (balances : List Nat) (iIn iOut : Int)
    (tokenAmountOut invariant : Nat) : Except Err Nat := do
  let bOut ← jsGet balances iOut
  let balances := jsSet balances iOut (bOut - tokenAmountOut)
  let finalBalanceIn ←
    _getTokenBalanceGivenInvariantAndAllOtherBalances amp balances invariant iIn
  let bIn ← jsGet balances iIn
  pure (finalBalanceIn - bIn + 1)

/-- Modelled from the spec: proportional-mint amount for a single-sided join;
fee-adjusted per non-liquidity-token imbalance versus the ideal proportional
balances, then minted pro rata from the invariant growth. -/
def _calcBptOutGivenExactTokensIn (amp : Nat) (balances amountsIn : List Nat)
    (bptTotalSupply currentInvariant swapFee : Nat) : Except Err Nat := do
  let sumBalances := balances.foldl (· + ·) 0
  let ratios := List.zipWith
    (fun b a => MathSol.divDownFixed (b + a) b) balances amountsIn
  let invariantRatioWithFees := (List.zipWith
    (fun r b => MathSol.mulDownFixed r (MathSol.divDownFixed b sumBalances))
    ratios balances).foldl (· + ·) 0
  let newBalances := List.zipWith
    (fun (p : Nat × Nat) r =>
      if r > invariantRatioWithFees then
        let nonTaxable := MathSol.mulDownFixed p.1 (invariantRatioWithFees - WAD)
        let taxable := p.2 - nonTaxable
        p.1 + (nonTaxable +
          MathSol.mulDownFixed taxable (MathSol.complementFixed swapFee))
      else p.1 + p.2)
    (balances.zip amountsIn) ratios
  let newInvariant ← _calculateInvariant amp newBalances
  let invariantRatio := MathSol.divDownFixed newInvariant currentInvariant
  if invariantRatio > WAD then
    pure (MathSol.mulDownFixed bptTotalSupply (invariantRatio - WAD))
  else pure 0

/-- Modelled from the spec: liquidity-token burn required for an exact
multi-token exit; fee-adjusted per imbalance, then burned pro rata from the
invariant shrinkage, rounding against the caller. -/
def _calcBptInGivenExactTokensOut (amp : Nat) (balances amountsOut : List Nat)
    (bptTotalSupply currentInvariant swapFee : Nat) : Except Err Nat := do
  let sumBalances := balances.foldl (· + ·) 0
  let ratios := List.zipWith
    (fun b a => MathSol.divUpFixed (b - a) b) balances amountsOut
  let invariantRatioWithoutFees := (List.zipWith
    (fun r b => MathSol.mulUpFixed r (MathSol.divUpFixed b sumBalances))
    ratios balances).foldl (· + ·) 0
  let newBalances := List.zipWith
    (fun (p : Nat × Nat) r =>
      if r < invariantRatioWithoutFees then
        let nonTaxable := MathSol.mulDownFixed p.1
          (MathSol.complementFixed invariantRatioWithoutFees)
        let taxable := p.2 - nonTaxable
        p.1 - (nonTaxable +
          MathSol.divUpFixed taxable (MathSol.complementFixed swapFee))
      else p.1 - p.2)
    (balances.zip amountsOut) ratios
  let newInvariant ← _calculateInvariant amp newBalances
  let invariantRatio := MathSol.divDownFixed newInvariant currentInvariant
  pure (MathSol.mulUpFixed bptTotalSupply (MathSol.complementFixed invariantRatio))

/-- Modelled from the spec: single-token exit amount for an exact
liquidity-token burn; re-derives the invariant after the burn, solves for the
new balance of the exit token and applies the fee to the taxable part. -/
def _calcTokenOutGivenExactBptIn (amp : Nat) (balances : List Nat)
    (tokenIndex : Int) (bptAmountIn bptTotalSupply currentInvariant swapFee : Nat) :
    Except Err Nat := do
  let newInvariant := MathSol.mulUpFixed
    (MathSol.divUpFixed (bptTotalSupply - bptAmountIn) bptTotalSupply)
    currentInvariant
  let newBalanceTokenIndex ←
    _getTokenBalanceGivenInvariantAndAllOtherBalances amp balances newInvariant
      tokenIndex
  let bTok ← jsGet balances tokenIndex
  let amountOutWithoutFee := bTok - newBalanceTokenIndex
  let sumBalances := balances.foldl (· + ·) 0
  let currentWeight := MathSol.divDownFixed bTok sumBalances
  let taxablePercentage := MathSol.complementFixed currentWeight
  let taxableAmount := MathSol.mulUpFixed amountOutWithoutFee taxablePercentage
  let nonTaxableAmount := amountOutWithoutFee - taxableAmount
  pure (nonTaxableAmount +
    MathSol.mulDownFixed taxableAmount (MathSol.complementFixed swapFee))

/-- Modelled from the spec: single-token join cost for an exact
liquidity-token mint; re-derives the invariant after the mint, solves for the
new balance of the join token and adds the fee on the taxable part. -/
def _calcTokenInGivenExactBptOut (amp : Nat) (balances : List Nat)
    (tokenIndex : Int) (bptAmountOut bptTotalSupply currentInvariant swapFee : Nat) :
    Except Err Nat := do
  let newInvariant := MathSol.mulUpFixed
    (MathSol.divUpFixed (bptTotalSupply + bptAmountOut) bptTotalSupply)
    currentInvariant
  let newBalanceTokenIndex ←
    _getTokenBalanceGivenInvariantAndAllOtherBalances amp balances newInvariant
      tokenIndex
  let bTok ← jsGet balances tokenIndex
  let amountInWithoutFee := newBalanceTokenIndex - bTok
  let sumBalances := balances.foldl (· + ·) 0
  let currentWeight := MathSol.divDownFixed bTok sumBalances
  let taxablePercentage := MathSol.complementFixed currentWeight
  let taxableAmount := MathSol.mulUpFixed amountInWithoutFee taxablePercentage
  let nonTaxableAmount := amountInWithoutFee - taxableAmount
  pure (nonTaxableAmount +
    MathSol.divUpFixed taxableAmount (MathSol.complementFixed swapFee))

/-- Swap direction selector. -/
inductive SwapKind where
  | givenIn
  | givenOut
deriving DecidableEq, Repr

/-- The composable-stable pool snapshot, with the derived fields the TS
constructor computes: the pool address from the id, the index of the pool's
own liquidity token, and the token list with that index spliced out. -/
structure StablePool where
  id : String
  address : String
  amp : Nat
  swapFee : Nat
  tokens : List SToken
  tokensNoBpt : List SToken
  totalShares : Nat
  bptIndex : Int
deriving DecidableEq, Repr

/-- The TS `StablePool` constructor: derives the address from the id (which
throws on a malformed id), finds the liquidity-token index by address, and
builds `tokensNoBpt` by splicing that index out of a copy of the token
array. -/
def StablePool.make (id : String) (amp swapFee : Nat) (tokens : List SToken)
    (totalShares : Nat) : Except Err StablePool := do
  let address ← getPoolAddress id
  let bptIndex := jsFindIndex tokens (fun t => t.token.address == address)
  let tokensNoBpt := jsSpliceRemoveOne tokens bptIndex
  pure ⟨id, address, amp, swapFee, tokens, tokensNoBpt, totalShares, bptIndex⟩

/-- Fee extraction applied to an exact-in amount before the main math: the
fee amount is the round-up WAD product of the amount with the swap fee, and
is subtracted from the amount. -/
def StablePool.subtractSwapFeeAmount (p : StablePool) (amount : TokenAmount) :
    Except Err TokenAmount :=
  amount.sub (amount.mulUpFixed p.swapFee)

/-- Fee addition applied to an exact-out computed input after the main math:
round-up WAD division of the amount by the complement of the swap fee. -/
def StablePool.addSwapFeeAmount (p : StablePool) (amount : TokenAmount) :
    TokenAmount :=
  amount.divUpFixed (MathSol.complementFixed p.swapFee)

/-- The branch of `swapGivenIn` that runs after fee subtraction and rate
multiplication: dispatches on whether either side is the pool's own
liquidity token and returns the computed output-side 18-decimal amount. -/
def StablePool.givenInMath (p : StablePool) (tokenIn tokenOut : Token)
    (tInIndexNoBpt tOutIndexNoBpt : Int) (amountInScale18 invariant : Nat)
    (balancesNoBpt : List Nat) : Except Err Nat := do
  let bptTok ← jsGet p.tokens p.bptIndex
  if tokenIn.isEqual bptTok.token then
    _calcTokenOutGivenExactBptIn p.amp balancesNoBpt tOutIndexNoBpt
      amountInScale18 p.totalShares invariant p.swapFee
  else if tokenOut.isEqual bptTok.token then
    let amountsIn := jsSet (List.replicate p.tokensNoBpt.length 0)
      tInIndexNoBpt amountInScale18
    _calcBptOutGivenExactTokensIn p.amp balancesNoBpt amountsIn
      p.totalShares invariant p.swapFee
  else
    _calcOutGivenIn p.amp balancesNoBpt tInIndexNoBpt tOutIndexNoBpt
      amountInScale18 invariant

/-- The part of `swapGivenIn` that follows the fee subtraction: rate
multiplication of the input, invariant derivation, main math, then the
round-down conversions of the output (18-decimal to raw, and the division by
the output token's rate). -/
def StablePool.givenInCore (p : StablePool) (tokenIn tokenOut : Token)
    (tInIndex tOutIndex : Int) (amountInWithFee : TokenAmount) :
    Except Err TokenAmount := do
  let tIn ← jsGet p.tokens tInIndex
  let tInIndexNoBpt := jsFindIndex p.tokensNoBpt
    (fun t => t.token.address == tokenIn.address)
  let tOutIndexNoBpt := jsFindIndex p.tokensNoBpt
    (fun t => t.token.address == tokenOut.address)
  let amountInWithRate := amountInWithFee.mulDownFixed tIn.rate
  let balancesNoBpt := p.tokensNoBpt.map SToken.scale18
  let invariant ← _calculateInvariant p.amp balancesNoBpt
  let tokenOutScale18 ← p.givenInMath tokenIn tokenOut tInIndexNoBpt
    tOutIndexNoBpt amountInWithRate.scale18 invariant balancesNoBpt
  let amountOut := TokenAmount.fromScale18Amount tokenOut tokenOutScale18 false
  let tOut ← jsGet p.tokens tOutIndex
  pure (amountOut.divDownFixed tOut.rate)

/-- Exact-in swap of the stable pool: token lookups by address (failing with
the unknown-token error), the input-side balance guard, fee subtraction, then
the core pipeline. -/
def StablePool.swapGivenIn (p : StablePool) (tokenIn tokenOut : Token)
    (swapAmount : TokenAmount) : Except Err TokenAmount := do
  let tInIndex := jsFindIndex p.tokens
    (fun t => t.token.address == tokenIn.address)
  let tOutIndex := jsFindIndex p.tokens
    (fun t => t.token.address == tokenOut.address)
  if tInIndex < 0 ∨ tOutIndex < 0 then .error .unknownToken
  else do
    let tIn ← jsGet p.tokens tInIndex
    if swapAmount.amount > tIn.amount then .error .exceedsPoolLimit
    else do
      let amountInWithFee ← p.subtractSwapFeeAmount swapAmount
      p.givenInCore tokenIn tokenOut tInIndex tOutIndex amountInWithFee

/-- The branch of `swapGivenOut` that computes the input-side 18-decimal
amount from the requested output. -/
def StablePool.givenOutMath (p : StablePool) (tokenIn tokenOut : Token)
    (tInIndexNoBpt tOutIndexNoBpt : Int) (amountOutScale18 invariant : Nat)
    (balancesNoBpt : List Nat) : Except Err Nat := do
  let bptTok ← jsGet p.tokens p.bptIndex
  if tokenIn.isEqual bptTok.token then
    let amountsOut := jsSet (List.replicate p.tokensNoBpt.length 0)
      tOutIndexNoBpt amountOutScale18
    _calcBptInGivenExactTokensOut p.amp balancesNoBpt amountsOut
      p.totalShares invariant p.swapFee
  else if tokenOut.isEqual bptTok.token then
    _calcTokenInGivenExactBptOut p.amp balancesNoBpt tInIndexNoBpt
      amountOutScale18 p.totalShares invariant p.swapFee
  else
    _calcInGivenOut p.amp balancesNoBpt tInIndexNoBpt tOutIndexNoBpt
      amountOutScale18 invariant

/-- Exact-out swap of the stable pool: token lookups by address, the
output-side balance guard on the requested amount, rate multiplication of the
output, invariant derivation, main math, then the round-up 18-decimal-to-raw
conversion of the input, fee addition and the round-down division by the
input token's rate. -/
def StablePool.swapGivenOut (p : StablePool) (tokenIn tokenOut : Token)
    (swapAmount : TokenAmount) : Except Err TokenAmount := do
  let tInIndex := jsFindIndex p.tokens
    (fun t => t.token.address == tokenIn.address)
  let tOutIndex := jsFindIndex p.tokens
    (fun t => t.token.address == tokenOut.address)
  if tInIndex < 0 ∨ tOutIndex < 0 then .error .unknownToken
  else do
    let tOut ← jsGet p.tokens tOutIndex
    if swapAmount.amount > tOut.amount then .error .exceedsPoolLimit
    else do
      let tInIndexNoBpt := jsFindIndex p.tokensNoBpt
        (fun t => t.token.address == tokenIn.address)
      let tOutIndexNoBpt := jsFindIndex p.tokensNoBpt
        (fun t => t.token.address == tokenOut.address)
      let amountOutWithRate := swapAmount.mulDownFixed tOut.rate
      let balancesNoBpt := p.tokensNoBpt.map SToken.scale18
      let invariant ← _calculateInvariant p.amp balancesNoBpt
      let tokenInScale18 ← p.givenOutMath tokenIn tokenOut tInIndexNoBpt
        tOutIndexNoBpt amountOutWithRate.scale18 invariant balancesNoBpt
      let amountIn := TokenAmount.fromScale18Amount tokenIn tokenInScale18 true
      let amountInWithFee := p.addSwapFeeAmount amountIn
      let tIn ← jsGet p.tokens tInIndex
      pure (amountInWithFee.divDownFixed tIn.rate)

/-- Swap limit of the stable pool: for both kinds, 99 percent of a member
token's balance divided by its rate; the input token's for given-in and the
output token's for given-out. -/
def StablePool.getLimitAmountSwap (p : StablePool) (tokenIn tokenOut : Token)
    (swapKind : SwapKind) : Except Err Nat := do
  let tIn := p.tokens.find? (fun t => t.token.address == tokenIn.address)
  let tOut := p.tokens.find? (fun t => t.token.address == tokenOut.address)
  match tIn, tOut with
  | some tIn, some tOut =>
    match swapKind with
    | .givenIn => pure (tIn.amount * ALMOST_ONE / tIn.rate)
    | .givenOut => pure (tOut.amount * ALMOST_ONE / tOut.rate)
  | _, _ => .error .unknownToken

/-- A token entry of a raw composable-stable pool record. -/
structure RawStableToken where
  address : String
  decimals : Nat
  balance : String
  priceRate : Option String
  index : Int
deriving DecidableEq, Repr

/-- A raw composable-stable pool record as supplied by the pool-state
provider. -/
structure RawComposableStablePool where
  id : String
  address : String
  amp : String
  swapFee : String
  totalShares : String
  tokens : List RawStableToken
deriving DecidableEq, Repr

/-- Conversion of one raw token entry: the price-rate presence check comes
first (a missing or empty rate throws), then the balance parse; an entry
whose address equals the record's own address becomes the liquidity-token
entry, any other becomes an ordinary entry with its parsed rate. -/
def stableTokenOfRaw (poolAddress : String) (t : RawStableToken) :
    Except Err SToken := do
  match t.priceRate with
  | none => .error .missingPriceRate
  | some pr =>
    if pr = "" then .error .missingPriceRate
    else do
      let token : Token := ⟨1, t.address, t.decimals⟩
      let tokenAmount ← TokenAmount.fromHumanAmount token t.balance
      if t.address == poolAddress then
        pure (mkStableBpt token tokenAmount.amount)
      else do
        let rate ← optionToExcept (fastParseEther pr) .invalidAmount
        pure (mkStablePoolToken token tokenAmount.amount rate)

/-- The TS `StablePool.fromRawPool` factory.  The in-place `Array.sort` on
the record's token array is a caller-visible mutation, so the function
returns both the pool and the record as it is left after the call. -/
def stableFromRawPool (pool : RawComposableStablePool) :
    Except Err (StablePool × RawComposableStablePool) := do
  let orderedTokens := jsSortOn (fun t => t.index) pool.tokens
  let mutated := { pool with tokens := orderedTokens }
  let poolTokens ← mapE (stableTokenOfRaw pool.address) orderedTokens
  let totalShares ← optionToExcept (fastParseEther pool.totalShares) .invalidAmount
  let ampBase ← optionToExcept (parseBigIntStr pool.amp) .invalidAmount
  let swapFee ← optionToExcept (fastParseEther pool.swapFee) .invalidAmount
  let stablePool ← StablePool.make pool.id (ampBase * 1000) swapFee poolTokens
    totalShares
  pure (stablePool, mutated)

/-- The maximum token balance constant of the linear pool file,
`MAX_UINT112 - 1`. -/
def MAX_TOKEN_BALANCE : Nat := MAX_UINT112 - 1

/-- The 1.0 WAD constant of the linear pool file. -/
def ONE : Nat := 1000000000000000000

/-- The 10.0 WAD constant of the linear pool file (its maximum
liquidity-token ratio). -/
def maxRatioWad : Nat := 10000000000000000000

/-- Linear-pool parameters: fee, wrapped-token rate and the two main-balance
targets, all 18-decimal. -/
structure LinearParams where
  fee : Nat
  rate : Nat
  lowerTarget : Nat
  upperTarget : Nat
deriving DecidableEq, Repr

/-- The wrapped member token of a linear pool: a token amount with a rate. -/
structure WToken where
  token : Token
  amount : Nat
  rate : Nat
deriving DecidableEq, Repr

/-- Rate-adjusted 18-decimal balance of the wrapped token. -/
def WToken.scale18 (t : WToken) : Nat := t.amount * t.token.scalar * t.rate / WAD

/-- The linear pool's own liquidity-token entry. -/
structure LBpt where
  token : Token
  amount : Nat
deriving DecidableEq, Repr

/-- Virtual balance of the linear pool's liquidity token: the maximum token
balance minus the held amount (a JS bigint subtraction, hence `Int`). -/
def LBpt.virtualBalance (t : LBpt) : Int :=
  (MAX_TOKEN_BALANCE : Int) - (t.amount : Int)

/-- The twelve directional conversion functions of the linear math module.
The module is not part of the source tree, so the pool is verified for every
choice of these functions; each can fail (the out-of-bounds rejection of
spec section 4.6).  Main-wrapped conversions take the amount and the main
18-decimal balance; liquidity-token conversions also take the wrapped
18-decimal balance and the virtual liquidity-token supply. -/
structure LinearMath where
  calcWrappedOutPerMainIn : Nat → Nat → LinearParams → Except Err Nat
  calcBptOutPerMainIn : Nat → Nat → Nat → Int → LinearParams → Except Err Nat
  calcMainOutPerWrappedIn : Nat → Nat → LinearParams → Except Err Nat
  calcBptOutPerWrappedIn : Nat → Nat → Nat → Int → LinearParams → Except Err Nat
  calcMainOutPerBptIn : Nat → Nat → Nat → Int → LinearParams → Except Err Nat
  calcWrappedOutPerBptIn : Nat → Nat → Nat → Int → LinearParams → Except Err Nat
  calcMainInPerWrappedOut : Nat → Nat → LinearParams → Except Err Nat
  calcMainInPerBptOut : Nat → Nat → Nat → Int → LinearParams → Except Err Nat
  calcWrappedInPerMainOut : Nat → Nat → LinearParams → Except Err Nat
  calcWrappedInPerBptOut : Nat → Nat → Nat → Int → LinearParams → Except Err Nat
  calcBptInPerMainOut : Nat → Nat → Nat → Int → LinearParams → Except Err Nat
  calcBptInPerWrappedOut : Nat → Nat → Nat → Int → LinearParams → Except Err Nat

/-- The linear pool snapshot. -/
structure LinearPool where
  id : String
  address : String
  poolTypeVersion : Nat
  swapFee : Nat
  mainToken : TokenAmount
  wrappedToken : WToken
  bptToken : LBpt
  params : LinearParams
deriving Repr

/-- The TS `LinearPool` constructor: derives the address from the id. -/
def LinearPool.make (id : String) (poolTypeVersion : Nat)
    (params : LinearParams) (mainToken : TokenAmount) (wrappedToken : WToken)
    (bptToken : LBpt) : Except Err LinearPool := do
  let address ← getPoolAddress id
  pure ⟨id, address, poolTypeVersion, params.fee, mainToken, wrappedToken,
    bptToken, params⟩

/-- The `tokens` getter of the linear pool: always the fixed sequence main
token, wrapped token, liquidity token, with their held amounts. -/
def LinearPool.tokensList (p : LinearPool) : List (Token × Nat) :=
  [(p.mainToken.token, p.mainToken.amount),
   (p.wrappedToken.token, p.wrappedToken.amount),
   (p.bptToken.token, p.bptToken.amount)]

/-- The exact-in dispatch of the linear pool: selects one of the six given-in
conversions by comparing the trade tokens against the three member tokens,
failing with the unknown-token error when the input token matches none. -/
def LinearPool.givenInDispatch (m : LinearMath) (p : LinearPool)
    (tokenIn tokenOut : Token) (swapAmount : TokenAmount) :
    Except Err TokenAmount := do
  if tokenIn.isEqual p.mainToken.token then
    if tokenOut.isEqual p.wrappedToken.token then
      let s ← m.calcWrappedOutPerMainIn swapAmount.scale18 p.mainToken.scale18
        p.params
      pure (TokenAmount.fromScale18Amount p.wrappedToken.token s false)
    else
      let s ← m.calcBptOutPerMainIn swapAmount.scale18 p.mainToken.scale18
        p.wrappedToken.scale18 p.bptToken.virtualBalance p.params
      pure (TokenAmount.fromScale18Amount p.bptToken.token s false)
  else if tokenIn.isEqual p.wrappedToken.token then
    if tokenOut.isEqual p.mainToken.token then
      let s ← m.calcMainOutPerWrappedIn swapAmount.scale18 p.mainToken.scale18
        p.params
      pure (TokenAmount.fromScale18Amount p.mainToken.token s false)
    else
      let s ← m.calcBptOutPerWrappedIn swapAmount.scale18 p.mainToken.scale18
        p.wrappedToken.scale18 p.bptToken.virtualBalance p.params
      pure (TokenAmount.fromScale18Amount p.bptToken.token s false)
  else if tokenIn.isEqual p.bptToken.token then
    if tokenOut.isEqual p.mainToken.token then
      let s ← m.calcMainOutPerBptIn swapAmount.scale18 p.mainToken.scale18
        p.wrappedToken.scale18 p.bptToken.virtualBalance p.params
      pure (TokenAmount.fromScale18Amount p.mainToken.token s false)
    else
      let s ← m.calcWrappedOutPerBptIn swapAmount.scale18 p.mainToken.scale18
        p.wrappedToken.scale18 p.bptToken.virtualBalance p.params
      pure (TokenAmount.fromScale18Amount p.wrappedToken.token s false)
  else .error .unknownToken

/-- Exact-in swap of the linear pool: the output is computed first by the
dispatch, then compared against the held balance of the entry found by the
output token's address (an absent address makes that read fail). -/
def LinearPool.swapGivenIn (m : LinearMath) (p : LinearPool)
    (tokenIn tokenOut : Token) (swapAmount : TokenAmount) :
    Except Err TokenAmount := do
  let tOutIndex := jsFindIndex p.tokensList (fun t => t.1.address == tokenOut.address)
  let output ← p.givenInDispatch m tokenIn tokenOut swapAmount
  let tOut ← jsGet p.tokensList tOutIndex
  if output.amount > tOut.2 then .error .exceedsPoolLimit
  else pure output

/-- The exact-out dispatch of the linear pool: selects one of the six
given-out conversions; all six convert the computed input back to raw space
rounding up. -/
def LinearPool.givenOutDispatch (m : LinearMath) (p : LinearPool)
    (tokenIn tokenOut : Token) (swapAmount : TokenAmount) :
    Except Err TokenAmount := do
  if tokenIn.isEqual p.mainToken.token then
    if tokenOut.isEqual p.wrappedToken.token then
      let s ← m.calcMainInPerWrappedOut swapAmount.scale18 p.mainToken.scale18
        p.params
      pure (TokenAmount.fromScale18Amount p.mainToken.token s true)
    else
      let s ← m.calcMainInPerBptOut swapAmount.scale18 p.mainToken.scale18
        p.wrappedToken.scale18 p.bptToken.virtualBalance p.params
      pure (TokenAmount.fromScale18Amount p.mainToken.token s true)
  else if tokenIn.isEqual p.wrappedToken.token then
    if tokenOut.isEqual p.mainToken.token then
      let s ← m.calcWrappedInPerMainOut swapAmount.scale18 p.mainToken.scale18
        p.params
      pure (TokenAmount.fromScale18Amount p.wrappedToken.token s true)
    else
      let s ← m.calcWrappedInPerBptOut swapAmount.scale18 p.mainToken.scale18
        p.wrappedToken.scale18 p.bptToken.virtualBalance p.params
      pure (TokenAmount.fromScale18Amount p.wrappedToken.token s true)
  else if tokenIn.isEqual p.bptToken.token then
    if tokenOut.isEqual p.mainToken.token then
      let s ← m.calcBptInPerMainOut swapAmount.scale18 p.mainToken.scale18
        p.wrappedToken.scale18 p.bptToken.virtualBalance p.params
      pure (TokenAmount.fromScale18Amount p.bptToken.token s true)
    else
      let s ← m.calcBptInPerWrappedOut swapAmount.scale18 p.mainToken.scale18
        p.wrappedToken.scale18 p.bptToken.virtualBalance p.params
      pure (TokenAmount.fromScale18Amount p.bptToken.token s true)
  else .error .unknownToken

/-- Exact-out swap of the linear pool: the requested amount is compared
against the held balance of the entry found by the output token's address
before the dispatch runs. -/
def LinearPool.swapGivenOut (m : LinearMath) (p : LinearPool)
    (tokenIn tokenOut : Token) (swapAmount : TokenAmount) :
    Except Err TokenAmount := do
  let tOutIndex := jsFindIndex p.tokensList (fun t => t.1.address == tokenOut.address)
  let tOut ← jsGet p.tokensList tOutIndex
  if swapAmount.amount > tOut.2 then .error .exceedsPoolLimit
  else p.givenOutDispatch m tokenIn tokenOut swapAmount

/-- Swap limit of the linear pool: for given-in toward the liquidity token
the preminted maximum balance; for given-in toward any other token the input
amount obtained by evaluating the exact-out swap at 99 percent of the output
balance; for given-out ten times the balance for the liquidity token and 99
percent of the balance otherwise. -/
def LinearPool.getLimitAmountSwap (m : LinearMath) (p : LinearPool)
    (tokenIn tokenOut : Token) (swapKind : SwapKind) : Except Err Nat := do
  let tIn := p.tokensList.find? (fun t => t.1.address == tokenIn.address)
  let tOut := p.tokensList.find? (fun t => t.1.address == tokenOut.address)
  match tIn, tOut with
  | some _, some tOut =>
    match swapKind with
    | .givenIn =>
      if tokenOut.isEqual p.bptToken.token then pure MAX_TOKEN_BALANCE
      else do
        let amount := TokenAmount.fromRawAmount tokenOut (tOut.2 * ALMOST_ONE / ONE)
        let r ← p.swapGivenOut m tokenIn tokenOut amount
        pure r.amount
    | .givenOut =>
      if tokenOut.isEqual p.bptToken.token then pure (tOut.2 * maxRatioWad / ONE)
      else pure (tOut.2 * ALMOST_ONE / ONE)
  | _, _ => .error .unknownToken

/-- A token entry of a raw linear pool record. -/
structure RawLinearToken where
  address : String
  decimals : Nat
  balance : String
  priceRate : Option String
  index : Int
deriving DecidableEq, Repr

/-- A raw linear pool record as supplied by the pool-state provider. -/
structure RawLinearPool where
  id : String
  address : String
  poolTypeVersion : Nat
  swapFee : String
  mainIndex : Int
  wrappedIndex : Int
  lowerTarget : String
  upperTarget : String
  tokens : List RawLinearToken
deriving DecidableEq, Repr

/-- The wrapped-token rate string of a raw linear record: a missing or empty
(falsy) price rate defaults to one. -/
def wrappedRateStr (o : Option String) : String :=
  match o with
  | some s => if s = "" then "1.0" else s
  | none => "1.0"

/-- The TS `LinearPool.fromRawPool` factory: sorts the record's token array
in place (caller-visible), reads the main and wrapped entries at the given
indices of the sorted array, defaults a falsy wrapped rate to one, finds the
liquidity-token entry by the record's own address, and builds the pool.  The
pair returned carries the record as the call leaves it. -/
def linearFromRawPool (pool : RawLinearPool) :
    Except Err (LinearPool × RawLinearPool) := do
  let orderedTokens := jsSortOn (fun t => t.index) pool.tokens
  let mutated := { pool with tokens := orderedTokens }
  let swapFee ← optionToExcept (fastParseEther pool.swapFee) .invalidAmount
  let mT ← jsGet orderedTokens pool.mainIndex
  let mToken : Token := ⟨1, mT.address, mT.decimals⟩
  let lowerTarget ← TokenAmount.fromHumanAmount mToken pool.lowerTarget
  let upperTarget ← TokenAmount.fromHumanAmount mToken pool.upperTarget
  let mTokenAmount ← TokenAmount.fromHumanAmount mToken mT.balance
  let wT ← jsGet orderedTokens pool.wrappedIndex
  let wTRate ← optionToExcept (fastParseEther (wrappedRateStr wT.priceRate))
    .invalidAmount
  let wToken : Token := ⟨1, wT.address, wT.decimals⟩
  let wTokenAmount ← TokenAmount.fromHumanAmount wToken wT.balance
  let wrappedToken : WToken := ⟨wToken, wTokenAmount.amount, wTRate⟩
  let bptIndex := jsFindIndex orderedTokens (fun t => t.address == pool.address)
  let bT ← jsGet orderedTokens bptIndex
  let bToken : Token := ⟨1, bT.address, bT.decimals⟩
  let bTokenAmount ← TokenAmount.fromHumanAmount bToken bT.balance
  let bptToken : LBpt := ⟨bToken, bTokenAmount.amount⟩
  let params : LinearParams := ⟨swapFee, wTRate, lowerTarget.scale18,
    upperTarget.scale18⟩
  let linearPool ← LinearPool.make pool.id pool.poolTypeVersion params
    mTokenAmount wrappedToken bptToken
  pure (linearPool, mutated)

/-- Definition following the spec's words for claim comparison: the exact-out
swap with every amount-in conversion step rounded up, including the final
division by the input token's rate (the code's pipeline differs only in that
final step, which it rounds down). -/
def StablePool.swapGivenOutAllUp (p : StablePool) (tokenIn tokenOut : Token)
    (swapAmount : TokenAmount) : Except Err TokenAmount := do
  let tInIndex := jsFindIndex p.tokens
    (fun t => t.token.address == tokenIn.address)
  let tOutIndex := jsFindIndex p.tokens
    (fun t => t.token.address == tokenOut.address)
  if tInIndex < 0 ∨ tOutIndex < 0 then .error .unknownToken
  else do
    let tOut ← jsGet p.tokens tOutIndex
    if swapAmount.amount > tOut.amount then .error .exceedsPoolLimit
    else do
      let tInIndexNoBpt := jsFindIndex p.tokensNoBpt
        (fun t => t.token.address == tokenIn.address)
      let tOutIndexNoBpt := jsFindIndex p.tokensNoBpt
        (fun t => t.token.address == tokenOut.address)
      let amountOutWithRate := swapAmount.mulDownFixed tOut.rate
      let balancesNoBpt := p.tokensNoBpt.map SToken.scale18
      let invariant ← _calculateInvariant p.amp balancesNoBpt
      let tokenInScale18 ← p.givenOutMath tokenIn tokenOut tInIndexNoBpt
        tOutIndexNoBpt amountOutWithRate.scale18 invariant balancesNoBpt
      let amountIn := TokenAmount.fromScale18Amount tokenIn tokenInScale18 true
      let amountInWithFee := p.addSwapFeeAmount amountIn
      let tIn ← jsGet p.tokens tInIndex
      pure (amountInWithFee.divUpFixed tIn.rate)

/-- Address of the fixture pools' own liquidity token. -/
def bptAddr1 : String := "0xaaaaaaaaaaaaaaaaaaaaaaaaaaaaaaaaaaaaaaaa"

/-- A well-formed 66-character pool id whose first 42 characters are the
fixture liquidity-token address. -/
def poolId1 : String :=
  "0xaaaaaaaaaaaaaaaaaaaaaaaaaaaaaaaaaaaaaaaa000000000000000000000000"

/-- Fixture member token A. -/
def tokA : Token := ⟨1, "0xa1", 18⟩

/-- Fixture member token B. -/
def tokB : Token := ⟨1, "0xb2", 18⟩

/-- Fixture liquidity token of the stable pools. -/
def bptTok1 : Token := ⟨1, bptAddr1, 18⟩

/-- Token list of fixture pool `SP1`: two ordinary members and a
liquidity-token entry whose held balance is zero. -/
def SP1tokens : List SToken :=
  [mkStablePoolToken tokA 1000000 WAD, mkStablePoolToken tokB 1000000 WAD,
   mkStableBpt bptTok1 0]

/-- Fixture stable pool with zero fee, amplification one million and an empty
liquidity-token balance, exactly as its constructor builds it. -/
def SP1 : StablePool :=
  ⟨poolId1, bptAddr1, 1000000, 0, SP1tokens,
   [mkStablePoolToken tokA 1000000 WAD, mkStablePoolToken tokB 1000000 WAD],
   1000000, 2⟩

/-- Token list of fixture pool `SP2`: token A carries a rate of three WAD. -/
def SP2tokens : List SToken :=
  [mkStablePoolToken tokA 1000000 (3 * WAD), mkStablePoolToken tokB 1000000 WAD,
   mkStableBpt bptTok1 1000000]

/-- Fixture stable pool whose input-side token has a non-unit rate. -/
def SP2 : StablePool :=
  ⟨poolId1, bptAddr1, 1000000, 0, SP2tokens,
   [mkStablePoolToken tokA 1000000 (3 * WAD), mkStablePoolToken tokB 1000000 WAD],
   1000000, 2⟩

/-- Token list of fixture pool `SP3`: token B carries a rate of two WAD. -/
def SP3tokens : List SToken :=
  [mkStablePoolToken tokA 1000 WAD, mkStablePoolToken tokB 1000 (2 * WAD),
   mkStableBpt bptTok1 1000]

/-- Fixture stable pool whose output-side token has a rate of two WAD. -/
def SP3 : StablePool :=
  ⟨poolId1, bptAddr1, 1000000, 0, SP3tokens,
   [mkStablePoolToken tokA 1000 WAD, mkStablePoolToken tokB 1000 (2 * WAD)],
   1000, 2⟩

/-- Fixture stable pool with a ten-percent swap fee. -/
def SP4 : StablePool :=
  ⟨poolId1, bptAddr1, 1000000, 100000000000000000, SP1tokens,
   [mkStablePoolToken tokA 1000000 WAD, mkStablePoolToken tokB 1000000 WAD],
   1000000, 2⟩

/-- Fixture raw composable-stable record, already in ascending index order,
with a price rate on every entry including the liquidity-token entry. -/
def R7 : RawComposableStablePool :=
  ⟨poolId1, bptAddr1, "2", "0.001", "100.0",
   [⟨"0xa1", 18, "1000.0", some "1.0", 0⟩,
    ⟨"0xb2", 18, "2000.0", some "1.0", 1⟩,
    ⟨bptAddr1, 18, "500.0", some "1.0", 2⟩]⟩

/-- Fixture raw composable-stable record whose token array is out of index
order. -/
def SR9 : RawComposableStablePool :=
  ⟨poolId1, bptAddr1, "2", "0.001", "100.0",
   [⟨"0xb2", 18, "2000.0", some "1.0", 1⟩,
    ⟨"0xa1", 18, "1000.0", some "1.0", 0⟩,
    ⟨bptAddr1, 18, "500.0", some "1.0", 2⟩]⟩

/-- Fixture raw composable-stable record whose second entry has an empty
price rate. -/
def R10bad : RawComposableStablePool :=
  ⟨poolId1, bptAddr1, "2", "0.001", "100.0",
   [⟨"0xa1", 18, "1000.0", some "1.0", 0⟩,
    ⟨"0xb2", 18, "2000.0", some "", 1⟩,
    ⟨bptAddr1, 18, "500.0", some "1.0", 2⟩]⟩

/-- Fixture raw linear record whose wrapped entry has index zero and whose
main entry has index one, so the snapshot's fixed main-wrapped-liquidity
order is not ascending in the record's index field. -/
def LR8 : RawLinearPool :=
  ⟨poolId1, bptAddr1, 1, "0.01", 1, 0, "10.0", "1000.0",
   [⟨"0xw3", 18, "100.0", some "1.05", 0⟩,
    ⟨"0xm4", 18, "100.0", some "1.0", 1⟩,
    ⟨bptAddr1, 18, "50.0", none, 2⟩]⟩

/-- Index of a trade token inside a stable pool's token list, by address. -/
def stableIdxOf (p : StablePool) (t : Token) : Int :=
  jsFindIndex p.tokens (fun s => s.token.address == t.address)

/-- Index of a trade token inside a linear pool's token list, by address. -/
def linearIdxOf (p : LinearPool) (t : Token) : Int :=
  jsFindIndex p.tokensList (fun s => s.1.address == t.address)

/-- Main token of the fixture linear pool. -/
def tokM : Token := ⟨1, "0xm4", 18⟩

/-- Wrapped token of the fixture linear pool. -/
def tokW : Token := ⟨1, "0xw3", 18⟩

/-- The stable pool that `stableFromRawPool` builds from the fixture record
`R7` (and from `SR9`, whose token array is the same entries out of order). -/
def P7 : StablePool :=
  ⟨poolId1, bptAddr1, 2000, 1000000000000000,
   [mkStablePoolToken tokA 1000000000000000000000 WAD,
    mkStablePoolToken tokB 2000000000000000000000 WAD,
    mkStableBpt bptTok1 500000000000000000000],
   [mkStablePoolToken tokA 1000000000000000000000 WAD,
    mkStablePoolToken tokB 2000000000000000000000 WAD],
   100000000000000000000, 2⟩

/-- The linear pool that `linearFromRawPool` builds from the fixture record
`LR8`. -/
def LP8 : LinearPool :=
  ⟨poolId1, bptAddr1, 1, 10000000000000000,
   ⟨tokM, 100000000000000000000⟩,
   ⟨tokW, 100000000000000000000, 1050000000000000000⟩,
   ⟨bptTok1, 50000000000000000000⟩,
   ⟨10000000000000000, 1050000000000000000, 10000000000000000000,
    1000000000000000000000⟩⟩

/-- On-chain index that a raw linear record assigns to an address. -/
def recIdxOfLinear (r : RawLinearPool) (addr : String) : Int :=
  match r.tokens.find? (fun t => t.address == addr) with
  | some t => t.index
  | none => -1

/-- Index of a trade token inside a stable pool's liquidity-token-free list,
by address. -/
def stableIdxNoBpt (p : StablePool) (t : Token) : Int :=
  jsFindIndex p.tokensNoBpt (fun s => s.token.address == t.address)

/-- The 18-decimal balances of a stable pool's non-liquidity-token members,
as rebuilt by each swap call. -/
def stableBalances (p : StablePool) : List Nat :=
  p.tokensNoBpt.map SToken.scale18

/-- A trivial instance of the linear math module (every conversion returns
zero), used to instantiate theorems that hold for every choice of module. -/
def LMzero : LinearMath :=
  ⟨fun _ _ _ => .ok 0, fun _ _ _ _ _ => .ok 0, fun _ _ _ => .ok 0,
   fun _ _ _ _ _ => .ok 0, fun _ _ _ _ _ => .ok 0, fun _ _ _ _ _ => .ok 0,
   fun _ _ _ => .ok 0, fun _ _ _ _ _ => .ok 0, fun _ _ _ => .ok 0,
   fun _ _ _ _ _ => .ok 0, fun _ _ _ _ _ => .ok 0, fun _ _ _ _ _ => .ok 0⟩

theorem bindM_ok {α β} (a : α) (f : α → Except Err β) :
    (Except.ok a : Except Err α) >>= f = f a := rfl

theorem bindM_error {α β} (e : Err) (f : α → Except Err β) :
    (Except.error e : Except Err α) >>= f = .error e := rfl

theorem pureM_eq {α} (a : α) : (pure a : Except Err α) = .ok a := rfl

theorem exceptBindOk {α β} {e : Except Err α} {f : α → Except Err β} {b : β}
    (h : e.bind f = .ok b) : ∃ a, e = .ok a ∧ f a = .ok b := by
  cases e with
  | ok a => exact ⟨a, rfl, h⟩
  | error _ => exact absurd h (by simp [Except.bind])

theorem jsGet_neg {α} (l : List α) {i : Int} (h : i < 0) :
    jsGet l i = .error .typeError := by
  cases i with
  | ofNat n => exact absurd h (not_lt.mpr (Int.ofNat_nonneg n))
  | negSucc n => rfl

theorem jsFindIndexAux_neg_all {α} {p : α → Bool} :
    ∀ {l : List α} {n : Nat}, jsFindIndexAux p l n < 0 → ∀ a ∈ l, p a = false := by
  intro l
  induction l with
  | nil => intro n _ a ha; cases ha
  | cons x xs ih =>
    intro n h a ha
    rw [List.mem_cons] at ha
    by_cases hx : p x
    · rw [jsFindIndexAux, if_pos hx] at h
      exact absurd h (not_lt.mpr (Int.ofNat_nonneg n))
    · rw [jsFindIndexAux, if_neg hx] at h
      rcases ha with rfl | ha
      · exact eq_false_of_ne_true hx
      · exact ih h a ha

theorem jsFindIndex_neg_all {α} {l : List α} {p : α → Bool}
    (h : jsFindIndex l p < 0) : ∀ a ∈ l, p a = false :=
  jsFindIndexAux_neg_all h

theorem mem_insertByKey {α} (key : α → Int) (x a : α) :
    ∀ l, a ∈ insertByKey key x l ↔ a = x ∨ a ∈ l := by
  intro l
  induction l with
  | nil => simp [insertByKey]
  | cons y ys ih =>
    by_cases h : key y < key x
    · rw [insertByKey, if_pos h]
      simp only [List.mem_cons, ih]
      tauto
    · rw [insertByKey, if_neg h]
      simp only [List.mem_cons]

theorem mem_jsSortOn {α} (key : α → Int) (a : α) :
    ∀ l, a ∈ jsSortOn key l ↔ a ∈ l := by
  intro l
  induction l with
  | nil => simp [jsSortOn]
  | cons x xs ih =>
    rw [jsSortOn, mem_insertByKey, List.mem_cons, ih]

theorem exBind_ok_left {α β} (a : α) (f : α → Except Err β) :
    Except.bind (.ok a) f = f a := rfl

theorem exBind_error_left {α β} (e : Err) (f : α → Except Err β) :
    Except.bind (.error e) f = .error e := rfl

theorem ascendingBy_insert {α} (key : α → Int) (x : α) :
    ∀ l, ascendingBy key l = true → ascendingBy key (insertByKey key x l) = true := by
  intro l
  induction l with
  | nil => intro _; rfl
  | cons y ys ih =>
    intro h
    cases ys with
    | nil =>
      by_cases hc : key y < key x
      · rw [insertByKey, if_pos hc]
        show ascendingBy key [y, x] = true
        simp only [ascendingBy, Bool.and_eq_true, decide_eq_true_eq]
        exact ⟨le_of_lt hc, trivial⟩
      · rw [insertByKey, if_neg hc]
        show ascendingBy key [x, y] = true
        simp only [ascendingBy, Bool.and_eq_true, decide_eq_true_eq]
        exact ⟨by omega, trivial⟩
    | cons z zs =>
      have h2 : key y ≤ key z ∧ ascendingBy key (z :: zs) = true := by
        simpa only [ascendingBy, Bool.and_eq_true, decide_eq_true_eq] using h
      by_cases hc : key y < key x
      · rw [insertByKey, if_pos hc]
        have hrec : ascendingBy key (insertByKey key x (z :: zs)) = true := ih h2.2
        by_cases hz : key z < key x
        · rw [insertByKey, if_pos hz] at hrec ⊢
          cases hI : insertByKey key x zs with
          | nil =>
            show ascendingBy key [y, z] = true
            simp only [ascendingBy, Bool.and_eq_true, decide_eq_true_eq]
            exact ⟨h2.1, trivial⟩
          | cons w ws =>
            rw [hI] at hrec
            simp only [ascendingBy, Bool.and_eq_true, decide_eq_true_eq] at hrec ⊢
            exact ⟨h2.1, hrec⟩
        · rw [insertByKey, if_neg hz]
          simp only [ascendingBy, Bool.and_eq_true, decide_eq_true_eq] at h2 ⊢
          exact ⟨le_of_lt hc, by omega, h2.2⟩
      · rw [insertByKey, if_neg hc]
        simp only [ascendingBy, Bool.and_eq_true, decide_eq_true_eq]
        exact ⟨by omega, h2.1, h2.2⟩

theorem ascendingBy_jsSortOn {α} (key : α → Int) :
    ∀ l, ascendingBy key (jsSortOn key l) = true := by
  intro l
  induction l with
  | nil => rfl
  | cons x xs ih => exact ascendingBy_insert key x _ ih

theorem mapE_cons {α β} (f : α → Except Err β) (x : α) (xs : List α) :
    mapE f (x :: xs) =
      (f x).bind (fun y => (mapE f xs).bind (fun ys => .ok (y :: ys))) := rfl

theorem mapE_ok_mem {α β} {f : α → Except Err β} :
    ∀ {l : List α} {l' : List β}, mapE f l = .ok l' →
      ∀ {a : α}, a ∈ l → ∃ b ∈ l', f a = .ok b := by
  intro l
  induction l with
  | nil => intro l' _ a ha; cases ha
  | cons x xs ih =>
    intro l' h a ha
    rw [List.mem_cons] at ha
    rw [mapE_cons] at h
    cases hfx : f x with
    | error e => rw [hfx, exBind_error_left] at h; cases h
    | ok y =>
      rw [hfx, exBind_ok_left] at h
      cases hm : mapE f xs with
      | error e => rw [hm, exBind_error_left] at h; cases h
      | ok ys =>
        rw [hm, exBind_ok_left] at h
        injection h with h
        subst h
        rcases ha with rfl | ha
        · exact ⟨y, List.mem_cons_self _ _, hfx⟩
        · obtain ⟨b, hb, hfb⟩ := ih hm ha
          exact ⟨b, List.mem_cons_of_mem _ hb, hfb⟩

theorem mapE_bad_not_ok {α β} {f : α → Except Err β} {a : α}
    (hbad : ∀ b, f a ≠ .ok b) :
    ∀ {l : List α}, a ∈ l → ∀ l', mapE f l ≠ .ok l' := by
  intro l
  induction l with
  | nil => intro ha; cases ha
  | cons x xs ih =>
    intro ha l' h
    rw [List.mem_cons] at ha
    rw [mapE_cons] at h
    cases hfx : f x with
    | error e => rw [hfx, exBind_error_left] at h; cases h
    | ok y =>
      rcases ha with rfl | ha
      · exact hbad y hfx
      · rw [hfx, exBind_ok_left] at h
        cases hm : mapE f xs with
        | error e => rw [hm, exBind_error_left] at h; cases h
        | ok ys => exact ih ha ys hm

theorem mapE_map_eq {α β γ} {f : α → Except Err β} {g : β → γ} {h : α → γ}
    (hfg : ∀ a b, f a = .ok b → g b = h a) :
    ∀ {l : List α} {l' : List β}, mapE f l = .ok l' → l'.map g = l.map h := by
  intro l
  induction l with
  | nil =>
    intro l' hl
    injection hl with hl
    subst hl
    rfl
  | cons x xs ih =>
    intro l' hl
    rw [mapE_cons] at hl
    cases hfx : f x with
    | error e => rw [hfx, exBind_error_left] at hl; cases hl
    | ok y =>
      rw [hfx, exBind_ok_left] at hl
      cases hm : mapE f xs with
      | error e => rw [hm, exBind_error_left] at hl; cases hl
      | ok ys =>
        rw [hm, exBind_ok_left] at hl
        injection hl with hl
        subst hl
        simp only [List.map]
        rw [hfg x y hfx, ih hm]

/-- C1: the claim fails on the stable pool.  `SP1` is reachable through the
constructor, its liquidity-token entry (the output token of the trade) holds
a zero balance, yet `swapGivenIn` into the liquidity token succeeds and
returns 499 units, consuming more of the output token than the pool holds:
the stable exact-in path never checks the computed output against the output
balance. -/
theorem C1_swap_limit_counterexample :
    StablePool.make poolId1 1000000 0 SP1tokens 1000000 = .ok SP1 ∧
    SP1.tokens.get? 2 = some (mkStableBpt bptTok1 0) ∧
    SP1.swapGivenIn tokA bptTok1 ⟨tokA, 1000⟩ = .ok ⟨bptTok1, 499⟩ ∧
    0 < 499 :=
  ⟨rfl, rfl, rfl, by decide⟩

/-- C2: the claim fails on the stable pool.  The trade token on chain 2 is
absent from the pool's token set (token equality is by chain and address),
yet both swaps treat it as the chain-1 member with the same address: the
exact-in swap succeeds instead of failing. -/
theorem C2_unknown_token_counterexample :
    StablePool.make poolId1 1000000 0 SP1tokens 1000000 = .ok SP1 ∧
    (⟨2, "0xa1", 18⟩ : Token) ∉ SP1.tokens.map SToken.token ∧
    SP1.swapGivenIn ⟨2, "0xa1", 18⟩ tokB ⟨⟨2, "0xa1", 18⟩, 1000⟩ =
      .ok ⟨tokB, 998⟩ :=
  ⟨rfl, by decide, rfl⟩

/-- C3: the claim fails on the stable pool's fee addition.  At a ten-percent
fee and a one-unit computed input, `addSwapFeeAmount` returns two units (the
round-up division by the fee complement), while the round-down division the
claim describes returns one unit. -/
theorem C3_fee_rounding_counterexample :
    StablePool.make poolId1 1000000 100000000000000000 SP1tokens 1000000 =
      .ok SP4 ∧
    SP4.addSwapFeeAmount ⟨tokA, 1⟩ = ⟨tokA, 2⟩ ∧
    TokenAmount.divDownFixed ⟨tokA, 1⟩ (MathSol.complementFixed SP4.swapFee) =
      ⟨tokA, 1⟩ ∧
    (⟨tokA, 2⟩ : TokenAmount) ≠ ⟨tokA, 1⟩ :=
  ⟨rfl, rfl, rfl, by decide⟩

/-- C4: the claim fails on the stable pool's exact-out pipeline.  On `SP2`
the code's `swapGivenOut`, whose final division by the input token's rate
rounds down, returns 777 units, while the pipeline that rounds every
amount-in conversion step up (as the claim states) returns 778. -/
theorem C4_rounding_counterexample :
    StablePool.make poolId1 1000000 0 SP2tokens 1000000 = .ok SP2 ∧
    SP2.swapGivenOut tokA tokB ⟨tokB, 999⟩ = .ok ⟨tokA, 777⟩ ∧
    SP2.swapGivenOutAllUp tokA tokB ⟨tokB, 999⟩ = .ok ⟨tokA, 778⟩ ∧
    (⟨tokA, 777⟩ : TokenAmount) ≠ ⟨tokA, 778⟩ :=
  ⟨rfl, rfl, rfl, by decide⟩

/-- C5: the claim fails on the stable pool.  The output token of `SP3` holds
1000 units at a rate of two WAD; 99 percent of its balance is 990, but the
given-out limit is 495: the code divides the 99-percent figure by the token's
rate, which the claim does not describe. -/
theorem C5_limit_amount_counterexample :
    StablePool.make poolId1 1000000 0 SP3tokens 1000 = .ok SP3 ∧
    SP3.tokens.get? 1 = some (mkStablePoolToken tokB 1000 (2 * WAD)) ∧
    SP3.getLimitAmountSwap tokA tokB .givenOut = .ok 495 ∧
    1000 * ALMOST_ONE / WAD = 990 ∧
    (495 : Nat) ≠ 990 :=
  ⟨rfl, rfl, rfl, by decide, by decide⟩

/-- C8: the claim fails on the linear pool.  The snapshot built from `LR8`
holds its tokens in the fixed order main token, wrapped token, liquidity
token; their on-chain indices in the record are 1, 0, 2, which is not
ascending. -/
theorem C8_token_ordering_counterexample :
    linearFromRawPool LR8 = .ok (LP8, LR8) ∧
    LP8.tokensList.map (fun t => recIdxOfLinear LR8 t.1.address) = [1, 0, 2] ∧
    ascendingBy (fun i => i) [1, 0, 2] = false :=
  ⟨rfl, by decide, rfl⟩

/-- C9: the claim fails on `fromRawPool`.  Building a stable pool from the
record `SR9`, whose token array is out of index order, sorts that array in
place: the record the caller passed in is left equal to `R7` (the sorted
record), not to `SR9`. -/
theorem C9_mutation_counterexample :
    stableFromRawPool SR9 = .ok (P7, R7) ∧ R7 ≠ SR9 :=
  ⟨rfl, by decide⟩

/-- C1 amended: for stable pools, `swapGivenOut` fails with the pool-limit
error when the requested output exceeds the output token's held balance,
while `swapGivenIn` guards the input side only, failing when the input amount
exceeds the input token's held balance (it performs no output-side check);
for linear pools, `swapGivenIn` never returns more than the output token's
held balance (the computed output is checked after the math) and
`swapGivenOut` fails when the requested output exceeds that balance. -/
theorem C1_swap_limit_amended :
    (∀ (p : StablePool) (tin tout : Token) (a : TokenAmount) (tIn : SToken),
      ¬ stableIdxOf p tin < 0 → ¬ stableIdxOf p tout < 0 →
      jsGet p.tokens (stableIdxOf p tin) = .ok tIn →
      tIn.amount < a.amount →
      p.swapGivenIn tin tout a = .error .exceedsPoolLimit) ∧
    (∀ (p : StablePool) (tin tout : Token) (a : TokenAmount) (tOut : SToken),
      ¬ stableIdxOf p tin < 0 → ¬ stableIdxOf p tout < 0 →
      jsGet p.tokens (stableIdxOf p tout) = .ok tOut →
      tOut.amount < a.amount →
      p.swapGivenOut tin tout a = .error .exceedsPoolLimit) ∧
    (∀ (m : LinearMath) (p : LinearPool) (tin tout : Token) (a out : TokenAmount),
      LinearPool.swapGivenIn m p tin tout a = .ok out →
      ∃ tOut, jsGet p.tokensList (linearIdxOf p tout) = .ok tOut ∧
        out.amount ≤ tOut.2) ∧
    (∀ (m : LinearMath) (p : LinearPool) (tin tout : Token) (a : TokenAmount)
      (tOut : Token × Nat),
      jsGet p.tokensList (linearIdxOf p tout) = .ok tOut →
      tOut.2 < a.amount →
      LinearPool.swapGivenOut m p tin tout a = .error .exceedsPoolLimit) := by
  refine ⟨?_, ?_, ?_, ?_⟩
  · intro p tin tout a tIn hIn0 hOut0 hget hamt
    simp only [StablePool.swapGivenIn, stableIdxOf] at *
    rw [if_neg (by tauto), hget, bindM_ok, if_pos hamt]
  · intro p tin tout a tOut hIn0 hOut0 hget hamt
    simp only [StablePool.swapGivenOut, stableIdxOf] at *
    rw [if_neg (by tauto), hget, bindM_ok, if_pos hamt]
  · intro m p tin tout a out h
    simp only [LinearPool.swapGivenIn, linearIdxOf] at h ⊢
    cases hd : p.givenInDispatch m tin tout a with
    | error e => rw [hd, bindM_error] at h; cases h
    | ok o =>
      rw [hd, bindM_ok] at h
      cases hg : jsGet p.tokensList
          (jsFindIndex p.tokensList fun t => t.1.address == tout.address) with
      | error e => rw [hg, bindM_error] at h; cases h
      | ok tOut =>
        rw [hg, bindM_ok] at h
        by_cases hb : o.amount > tOut.2
        · rw [if_pos hb] at h; cases h
        · rw [if_neg hb, pureM_eq] at h
          injection h with h
          subst h
          exact ⟨tOut, rfl, by omega⟩
  · intro m p tin tout a tOut hg hamt
    simp only [LinearPool.swapGivenOut, linearIdxOf] at *
    rw [hg, bindM_ok, if_pos hamt]

/-- C1 witness: each limit guard of the amended claim fired, or bounded the
output, at a concrete pool and trade. -/
theorem C1_swap_limit_witness :
    SP1.swapGivenIn tokA tokB ⟨tokA, 2000000⟩ = .error .exceedsPoolLimit ∧
    SP1.swapGivenOut tokA tokB ⟨tokB, 2000000⟩ = .error .exceedsPoolLimit ∧
    (∃ tOut, jsGet LP8.tokensList (linearIdxOf LP8 tokW) = .ok tOut ∧
      (TokenAmount.mk tokW 0).amount ≤ tOut.2) ∧
    LinearPool.swapGivenOut LMzero LP8 tokM tokW ⟨tokW, 200000000000000000000⟩ =
      .error .exceedsPoolLimit := by
  refine ⟨?_, ?_, ?_, ?_⟩
  · exact C1_swap_limit_amended.1 SP1 tokA tokB ⟨tokA, 2000000⟩
      (mkStablePoolToken tokA 1000000 WAD) (by decide) (by decide) rfl (by decide)
  · exact C1_swap_limit_amended.2.1 SP1 tokA tokB ⟨tokB, 2000000⟩
      (mkStablePoolToken tokB 1000000 WAD) (by decide) (by decide) rfl (by decide)
  · exact C1_swap_limit_amended.2.2.1 LMzero LP8 tokM tokW ⟨tokM, 5⟩ ⟨tokW, 0⟩ rfl
  · exact C1_swap_limit_amended.2.2.2 LMzero LP8 tokM tokW
      ⟨tokW, 200000000000000000000⟩ (tokW, 100000000000000000000) rfl (by decide)

theorem token_isEqual_false_of_addr {t : Token} {u : Token}
    (h : (u.address == t.address) = false) : t.isEqual u = false := by
  have hne : t.address ≠ u.address := by
    intro he
    rw [← he] at h
    simp at h
  unfold Token.isEqual
  cases hch : (t.chainId == u.chainId) with
  | false => rw [Bool.false_and]
  | true => rw [Bool.true_and]; exact beq_false_of_ne hne

theorem givenInDispatch_unknown (m : LinearMath) (p : LinearPool)
    (tin tout : Token) (a : TokenAmount) (h : linearIdxOf p tin < 0) :
    p.givenInDispatch m tin tout a = .error .unknownToken := by
  have hall := jsFindIndex_neg_all (by simpa [linearIdxOf] using h)
  have em : tin.isEqual p.mainToken.token = false :=
    token_isEqual_false_of_addr
      (hall (p.mainToken.token, p.mainToken.amount) (by simp [LinearPool.tokensList]))
  have ew : tin.isEqual p.wrappedToken.token = false :=
    token_isEqual_false_of_addr
      (hall (p.wrappedToken.token, p.wrappedToken.amount) (by simp [LinearPool.tokensList]))
  have eb : tin.isEqual p.bptToken.token = false :=
    token_isEqual_false_of_addr
      (hall (p.bptToken.token, p.bptToken.amount) (by simp [LinearPool.tokensList]))
  simp [LinearPool.givenInDispatch, em, ew, eb]

theorem givenOutDispatch_unknown (m : LinearMath) (p : LinearPool)
    (tin tout : Token) (a : TokenAmount) (h : linearIdxOf p tin < 0) :
    p.givenOutDispatch m tin tout a = .error .unknownToken := by
  have hall := jsFindIndex_neg_all (by simpa [linearIdxOf] using h)
  have em : tin.isEqual p.mainToken.token = false :=
    token_isEqual_false_of_addr
      (hall (p.mainToken.token, p.mainToken.amount) (by simp [LinearPool.tokensList]))
  have ew : tin.isEqual p.wrappedToken.token = false :=
    token_isEqual_false_of_addr
      (hall (p.wrappedToken.token, p.wrappedToken.amount) (by simp [LinearPool.tokensList]))
  have eb : tin.isEqual p.bptToken.token = false :=
    token_isEqual_false_of_addr
      (hall (p.bptToken.token, p.bptToken.amount) (by simp [LinearPool.tokensList]))
  simp [LinearPool.givenOutDispatch, em, ew, eb]

/-- C2 amended: both swaps of both pool archetypes fail whenever either trade
token's address is absent from the addresses of the pool's token list (the
code identifies member tokens by address, not by the chain-and-address token
identity): the stable pool fails with the unknown-token error, the linear
pool with the unknown-token error or the property access failure of its
output-side balance read. -/
theorem C2_unknown_token_amended :
    (∀ (p : StablePool) (tin tout : Token) (a : TokenAmount),
      stableIdxOf p tin < 0 ∨ stableIdxOf p tout < 0 →
      p.swapGivenIn tin tout a = .error .unknownToken ∧
      p.swapGivenOut tin tout a = .error .unknownToken) ∧
    (∀ (m : LinearMath) (p : LinearPool) (tin tout : Token) (a : TokenAmount),
      linearIdxOf p tin < 0 ∨ linearIdxOf p tout < 0 →
      (∀ out, LinearPool.swapGivenIn m p tin tout a ≠ .ok out) ∧
      (∀ out, LinearPool.swapGivenOut m p tin tout a ≠ .ok out)) := by
  constructor
  · intro p tin tout a h
    simp only [stableIdxOf] at h
    constructor
    · simp only [StablePool.swapGivenIn]
      rw [if_pos h]
    · simp only [StablePool.swapGivenOut]
      rw [if_pos h]
  · intro m p tin tout a h
    constructor
    · intro out hok
      simp only [LinearPool.swapGivenIn] at hok
      rcases h with htin | htout
      · rw [givenInDispatch_unknown m p tin tout a htin, bindM_error] at hok
        cases hok
      · cases hd : p.givenInDispatch m tin tout a with
        | error e => rw [hd, bindM_error] at hok; cases hok
        | ok o =>
          rw [hd, bindM_ok] at hok
          rw [jsGet_neg _ (by simpa [linearIdxOf] using htout), bindM_error] at hok
          cases hok
    · intro out hok
      simp only [LinearPool.swapGivenOut] at hok
      rcases h with htin | htout
      · cases hg : jsGet p.tokensList
            (jsFindIndex p.tokensList fun t => t.1.address == tout.address) with
        | error e => rw [hg, bindM_error] at hok; cases hok
        | ok t =>
          rw [hg, bindM_ok] at hok
          by_cases hb : a.amount > t.2
          · rw [if_pos hb] at hok; cases hok
          · rw [if_neg hb, givenOutDispatch_unknown m p tin tout a htin] at hok
            cases hok
      · rw [jsGet_neg _ (by simpa [linearIdxOf] using htout), bindM_error] at hok
        cases hok

/-- C2 witness: the amended failure at concrete pools: a token whose address
is not in the stable pool fails both stable swaps, and a token whose address
is not in the linear pool fails both linear swaps. -/
theorem C2_unknown_token_witness :
    SP1.swapGivenIn ⟨1, "0xzz", 18⟩ tokB ⟨⟨1, "0xzz", 18⟩, 5⟩ =
      .error .unknownToken ∧
    SP1.swapGivenOut ⟨1, "0xzz", 18⟩ tokB ⟨tokB, 5⟩ = .error .unknownToken ∧
    (∀ out, LinearPool.swapGivenIn LMzero LP8 ⟨1, "0xzz", 18⟩ tokW
      ⟨⟨1, "0xzz", 18⟩, 5⟩ ≠ .ok out) ∧
    (∀ out, LinearPool.swapGivenOut LMzero LP8 ⟨1, "0xzz", 18⟩ tokW
      ⟨tokW, 5⟩ ≠ .ok out) := by
  refine ⟨?_, ?_, ?_, ?_⟩
  · exact (C2_unknown_token_amended.1 SP1 ⟨1, "0xzz", 18⟩ tokB _
      (Or.inl (by decide))).1
  · exact (C2_unknown_token_amended.1 SP1 ⟨1, "0xzz", 18⟩ tokB _
      (Or.inl (by decide))).2
  · exact (C2_unknown_token_amended.2 LMzero LP8 ⟨1, "0xzz", 18⟩ tokW _
      (Or.inl (by decide))).1
  · exact (C2_unknown_token_amended.2 LMzero LP8 ⟨1, "0xzz", 18⟩ tokW _
      (Or.inl (by decide))).2

/-- C3 amended: the exact-in fee is extracted before the main math by a
round-up WAD multiplication and subtraction, and the exact-out fee is added
after the main math by a round-up (not round-down) WAD division of the
computed input by the complement of the fee; both directions therefore bias
rounding in the protocol's favor. -/
theorem C3_fee_application_amended :
    (∀ (p : StablePool) (a : TokenAmount),
      p.subtractSwapFeeAmount a = a.sub (a.mulUpFixed p.swapFee)) ∧
    (∀ (p : StablePool) (a : TokenAmount),
      p.addSwapFeeAmount a = a.divUpFixed (MathSol.complementFixed p.swapFee)) ∧
    (∀ (p : StablePool) (tin tout : Token) (a f : TokenAmount) (tIn : SToken),
      ¬ stableIdxOf p tin < 0 → ¬ stableIdxOf p tout < 0 →
      jsGet p.tokens (stableIdxOf p tin) = .ok tIn →
      ¬ a.amount > tIn.amount →
      p.subtractSwapFeeAmount a = .ok f →
      p.swapGivenIn tin tout a =
        p.givenInCore tin tout (stableIdxOf p tin) (stableIdxOf p tout) f) ∧
    (∀ (p : StablePool) (tin tout : Token) (a : TokenAmount) (tOut tIn : SToken)
      (inv s : Nat),
      ¬ stableIdxOf p tin < 0 → ¬ stableIdxOf p tout < 0 →
      jsGet p.tokens (stableIdxOf p tout) = .ok tOut →
      ¬ a.amount > tOut.amount →
      _calculateInvariant p.amp (stableBalances p) = .ok inv →
      p.givenOutMath tin tout (stableIdxNoBpt p tin) (stableIdxNoBpt p tout)
        (a.mulDownFixed tOut.rate).scale18 inv (stableBalances p) = .ok s →
      jsGet p.tokens (stableIdxOf p tin) = .ok tIn →
      p.swapGivenOut tin tout a =
        .ok ((p.addSwapFeeAmount
          (TokenAmount.fromScale18Amount tin s true)).divDownFixed tIn.rate)) := by
  refine ⟨fun _ _ => rfl, fun _ _ => rfl, ?_, ?_⟩
  · intro p tin tout a f tIn hIn0 hOut0 hget hamt hsub
    simp only [StablePool.swapGivenIn, stableIdxOf] at *
    rw [if_neg (by tauto), hget, bindM_ok, if_neg hamt, hsub, bindM_ok]
  · intro p tin tout a tOut tIn inv s hIn0 hOut0 hgetOut hamt hinv hmath hgetIn
    simp only [StablePool.swapGivenOut, stableIdxOf, stableIdxNoBpt,
      stableBalances] at *
    rw [if_neg (by tauto), hgetOut, bindM_ok, if_neg hamt, hinv, bindM_ok,
      hmath, bindM_ok, hgetIn, bindM_ok, pureM_eq]

/-- C3 witness: both fee positions and rounding directions at the
ten-percent-fee pool `SP4` and the rate-bearing pool `SP2`. -/
theorem C3_fee_application_witness :
    SP4.subtractSwapFeeAmount ⟨tokA, 10⟩ =
      (TokenAmount.mk tokA 10).sub ((TokenAmount.mk tokA 10).mulUpFixed SP4.swapFee) ∧
    SP4.addSwapFeeAmount ⟨tokA, 1⟩ =
      (TokenAmount.mk tokA 1).divUpFixed (MathSol.complementFixed SP4.swapFee) ∧
    SP4.swapGivenIn tokA tokB ⟨tokA, 1000⟩ =
      SP4.givenInCore tokA tokB (stableIdxOf SP4 tokA) (stableIdxOf SP4 tokB)
        ⟨tokA, 900⟩ ∧
    SP2.swapGivenOut tokA tokB ⟨tokB, 999⟩ =
      .ok ((SP2.addSwapFeeAmount
        (TokenAmount.fromScale18Amount tokA 2332 true)).divDownFixed
          (mkStablePoolToken tokA 1000000 (3 * WAD)).rate) := by
  refine ⟨rfl, rfl, ?_, ?_⟩
  · exact C3_fee_application_amended.2.2.1 SP4 tokA tokB ⟨tokA, 1000⟩
      ⟨tokA, 900⟩ (mkStablePoolToken tokA 1000000 WAD)
      (by decide) (by decide) rfl (by decide) rfl
  · exact C3_fee_application_amended.2.2.2 SP2 tokA tokB ⟨tokB, 999⟩
      (mkStablePoolToken tokB 1000000 WAD) (mkStablePoolToken tokA 1000000 (3 * WAD))
      3999334 2332 (by decide) (by decide) rfl (by decide) rfl rfl rfl

/-- C4 amended: every amount-out conversion of the exact-in swap rounds down
(the 18-decimal-to-raw conversion carries the round-down flag and the rate
division rounds down), and the exact-out computed input rounds up at the
18-decimal-to-raw conversion and the fee division but rounds DOWN, not up,
at the final division by the input token's rate. -/
theorem C4_rounding_amended :
    (∀ (p : StablePool) (tin tout : Token) (a f : TokenAmount) (tIn tOut : SToken)
      (inv s : Nat),
      ¬ stableIdxOf p tin < 0 → ¬ stableIdxOf p tout < 0 →
      jsGet p.tokens (stableIdxOf p tin) = .ok tIn →
      ¬ a.amount > tIn.amount →
      p.subtractSwapFeeAmount a = .ok f →
      _calculateInvariant p.amp (stableBalances p) = .ok inv →
      p.givenInMath tin tout (stableIdxNoBpt p tin) (stableIdxNoBpt p tout)
        (f.mulDownFixed tIn.rate).scale18 inv (stableBalances p) = .ok s →
      jsGet p.tokens (stableIdxOf p tout) = .ok tOut →
      p.swapGivenIn tin tout a =
        .ok ((TokenAmount.fromScale18Amount tout s false).divDownFixed tOut.rate)) ∧
    (∀ (p : StablePool) (tin tout : Token) (a : TokenAmount) (tOut tIn : SToken)
      (inv s : Nat),
      ¬ stableIdxOf p tin < 0 → ¬ stableIdxOf p tout < 0 →
      jsGet p.tokens (stableIdxOf p tout) = .ok tOut →
      ¬ a.amount > tOut.amount →
      _calculateInvariant p.amp (stableBalances p) = .ok inv →
      p.givenOutMath tin tout (stableIdxNoBpt p tin) (stableIdxNoBpt p tout)
        (a.mulDownFixed tOut.rate).scale18 inv (stableBalances p) = .ok s →
      jsGet p.tokens (stableIdxOf p tin) = .ok tIn →
      p.swapGivenOut tin tout a =
        .ok (((TokenAmount.fromScale18Amount tin s true).divUpFixed
          (MathSol.complementFixed p.swapFee)).divDownFixed tIn.rate)) := by
  constructor
  · intro p tin tout a f tIn tOut inv s hIn0 hOut0 hgetIn hamt hsub hinv hmath hgetOut
    simp only [StablePool.swapGivenIn, StablePool.givenInCore, stableIdxOf,
      stableIdxNoBpt, stableBalances] at *
    rw [if_neg (by tauto), hgetIn, bindM_ok, if_neg hamt, hsub, bindM_ok,
      bindM_ok, hinv, bindM_ok, hmath, bindM_ok, hgetOut, bindM_ok, pureM_eq]
  · intro p tin tout a tOut tIn inv s hIn0 hOut0 hgetOut hamt hinv hmath hgetIn
    simp only [StablePool.swapGivenOut, stableIdxOf, stableIdxNoBpt,
      stableBalances] at *
    rw [if_neg (by tauto), hgetOut, bindM_ok, if_neg hamt, hinv, bindM_ok,
      hmath, bindM_ok, hgetIn, bindM_ok, pureM_eq]
    rfl

/-- C4 witness: the rounding pipelines at the concrete pools `SP1` and
`SP2`. -/
theorem C4_rounding_witness :
    SP1.swapGivenIn tokA tokB ⟨tokA, 1000⟩ =
      .ok ((TokenAmount.fromScale18Amount tokB 998 false).divDownFixed
        (mkStablePoolToken tokB 1000000 WAD).rate) ∧
    SP2.swapGivenOut tokA tokB ⟨tokB, 999⟩ =
      .ok (((TokenAmount.fromScale18Amount tokA 2332 true).divUpFixed
        (MathSol.complementFixed SP2.swapFee)).divDownFixed
          (mkStablePoolToken tokA 1000000 (3 * WAD)).rate) := by
  constructor
  · exact C4_rounding_amended.1 SP1 tokA tokB ⟨tokA, 1000⟩ ⟨tokA, 1000⟩
      (mkStablePoolToken tokA 1000000 WAD) (mkStablePoolToken tokB 1000000 WAD)
      2000000 998 (by decide) (by decide) rfl (by decide) rfl rfl rfl rfl
  · exact C4_rounding_amended.2 SP2 tokA tokB ⟨tokB, 999⟩
      (mkStablePoolToken tokB 1000000 WAD) (mkStablePoolToken tokA 1000000 (3 * WAD))
      3999334 2332 (by decide) (by decide) rfl (by decide) rfl rfl rfl

/-- C5 amended: the stable pool's limit, for both kinds, is 99 percent of a
member balance divided by that member's rate (the input token's for given-in,
the output token's for given-out) and never evaluates `swapGivenOut`; the
linear pool's given-in limit is the preminted maximum balance when the output
is the liquidity token and otherwise the input amount from evaluating
`swapGivenOut` at 99 percent of the output balance (propagating its failure),
and its given-out limit is ten times the balance for the liquidity token and
99 percent of the balance otherwise. -/
theorem C5_limit_amount_amended :
    (∀ (p : StablePool) (tin tout : Token) (tIn tOut : SToken),
      p.tokens.find? (fun t => t.token.address == tin.address) = some tIn →
      p.tokens.find? (fun t => t.token.address == tout.address) = some tOut →
      p.getLimitAmountSwap tin tout .givenIn =
        .ok (tIn.amount * ALMOST_ONE / tIn.rate) ∧
      p.getLimitAmountSwap tin tout .givenOut =
        .ok (tOut.amount * ALMOST_ONE / tOut.rate)) ∧
    (∀ (m : LinearMath) (p : LinearPool) (tin tout : Token)
      (tIn tOut : Token × Nat),
      p.tokensList.find? (fun t => t.1.address == tin.address) = some tIn →
      p.tokensList.find? (fun t => t.1.address == tout.address) = some tOut →
      (tout.isEqual p.bptToken.token = true →
        LinearPool.getLimitAmountSwap m p tin tout .givenIn =
          .ok MAX_TOKEN_BALANCE ∧
        LinearPool.getLimitAmountSwap m p tin tout .givenOut =
          .ok (tOut.2 * maxRatioWad / ONE)) ∧
      (tout.isEqual p.bptToken.token = false →
        (∀ r, LinearPool.swapGivenOut m p tin tout
            (TokenAmount.fromRawAmount tout (tOut.2 * ALMOST_ONE / ONE)) = .ok r →
          LinearPool.getLimitAmountSwap m p tin tout .givenIn = .ok r.amount) ∧
        (∀ e, LinearPool.swapGivenOut m p tin tout
            (TokenAmount.fromRawAmount tout (tOut.2 * ALMOST_ONE / ONE)) =
              .error e →
          LinearPool.getLimitAmountSwap m p tin tout .givenIn = .error e) ∧
        LinearPool.getLimitAmountSwap m p tin tout .givenOut =
          .ok (tOut.2 * ALMOST_ONE / ONE))) := by
  constructor
  · intro p tin tout tIn tOut hfi hfo
    constructor
    · simp only [StablePool.getLimitAmountSwap]
      rw [hfi, hfo]
      rfl
    · simp only [StablePool.getLimitAmountSwap]
      rw [hfi, hfo]
      rfl
  · intro m p tin tout tIn tOut hfi hfo
    constructor
    · intro hbpt
      constructor
      · simp only [LinearPool.getLimitAmountSwap]
        rw [hfi, hfo]
        simp only [hbpt, if_true]
        rfl
      · simp only [LinearPool.getLimitAmountSwap]
        rw [hfi, hfo]
        simp only [hbpt, if_true]
        rfl
    · intro hbpt
      refine ⟨?_, ?_, ?_⟩
      · intro r hr
        simp only [LinearPool.getLimitAmountSwap]
        rw [hfi, hfo]
        simp only [hbpt, Bool.false_eq_true, if_false]
        rw [hr, bindM_ok]
        rfl
      · intro e he
        simp only [LinearPool.getLimitAmountSwap]
        rw [hfi, hfo]
        simp only [hbpt, Bool.false_eq_true, if_false]
        rw [he, bindM_error]
      · simp only [LinearPool.getLimitAmountSwap]
        rw [hfi, hfo]
        simp only [hbpt, Bool.false_eq_true, if_false]
        rfl

/-- C5 witness: the limit formulas at the fixture pools, with both the
rate-divided stable limits, the liquidity-token linear limits and the
swap-evaluated linear given-in limit. -/
theorem C5_limit_amount_witness :
    SP3.getLimitAmountSwap tokA tokB .givenIn = .ok 990 ∧
    SP3.getLimitAmountSwap tokA tokB .givenOut = .ok 495 ∧
    LinearPool.getLimitAmountSwap LMzero LP8 tokM bptTok1 .givenIn =
      .ok MAX_TOKEN_BALANCE ∧
    LinearPool.getLimitAmountSwap LMzero LP8 tokM bptTok1 .givenOut =
      .ok 500000000000000000000 ∧
    LinearPool.getLimitAmountSwap LMzero LP8 tokM tokW .givenIn =
      .ok (TokenAmount.mk tokM 0).amount := by
  refine ⟨?_, ?_, ?_, ?_, ?_⟩
  · exact ((C5_limit_amount_amended.1 SP3 tokA tokB
      (mkStablePoolToken tokA 1000 WAD) (mkStablePoolToken tokB 1000 (2 * WAD))
      rfl rfl).1)
  · exact ((C5_limit_amount_amended.1 SP3 tokA tokB
      (mkStablePoolToken tokA 1000 WAD) (mkStablePoolToken tokB 1000 (2 * WAD))
      rfl rfl).2)
  · exact ((C5_limit_amount_amended.2 LMzero LP8 tokM bptTok1
      (tokM, 100000000000000000000) (bptTok1, 50000000000000000000)
      rfl rfl).1 (by decide)).1
  · exact ((C5_limit_amount_amended.2 LMzero LP8 tokM bptTok1
      (tokM, 100000000000000000000) (bptTok1, 50000000000000000000)
      rfl rfl).1 (by decide)).2
  · exact (((C5_limit_amount_amended.2 LMzero LP8 tokM tokW
      (tokM, 100000000000000000000) (tokW, 100000000000000000000)
      rfl rfl).2 (by decide)).1) ⟨tokM, 0⟩ rfl

theorem invariantLoop_cases (A S N : Nat) (B : List Nat) :
    ∀ fuel inv,
      (∃ d prev, invariantLoop A S N B fuel inv = .ok d ∧
        d = invariantStep A S N B prev ∧ natDist d prev ≤ 1) ∨
      invariantLoop A S N B fuel inv = .error .invariantDidNotConverge := by
  intro fuel
  induction fuel with
  | zero => intro inv; right; rfl
  | succ n ih =>
    intro inv
    by_cases h : natDist (invariantStep A S N B inv) inv ≤ 1
    · left
      exact ⟨invariantStep A S N B inv, inv, by rw [invariantLoop, if_pos h],
        rfl, h⟩
    · rw [invariantLoop, if_neg h]
      exact ih (invariantStep A S N B inv)

/-- C6: the invariant solver terminates either at integer-unit convergence
(the returned value is one Newton step from its predecessor, at distance at
most one, or the zero-sum short circuit) or by exhausting the fixed iteration
budget with the explicit fatal non-convergence error; and both swap
directions can only return a value when the invariant derivation returned
one, so the failure is always propagated and never silently replaced by a
best-effort value. -/
theorem C6_invariant_convergence :
    (∀ (amp : Nat) (balances : List Nat),
      (∃ d, _calculateInvariant amp balances = .ok d ∧
        (balances.foldl (· + ·) 0 = 0 ∨
          ∃ prev, d = invariantStep (amp * balances.length)
              (balances.foldl (· + ·) 0) balances.length balances prev ∧
            natDist d prev ≤ 1)) ∨
      _calculateInvariant amp balances = .error .invariantDidNotConverge) ∧
    (∀ (p : StablePool) (tin tout : Token) (a out : TokenAmount),
      p.swapGivenIn tin tout a = .ok out →
      ∃ d, _calculateInvariant p.amp (stableBalances p) = .ok d) ∧
    (∀ (p : StablePool) (tin tout : Token) (a out : TokenAmount),
      p.swapGivenOut tin tout a = .ok out →
      ∃ d, _calculateInvariant p.amp (stableBalances p) = .ok d) := by
  refine ⟨?_, ?_, ?_⟩
  · intro amp balances
    by_cases hsum : balances.foldl (· + ·) 0 = 0
    · left
      exact ⟨0, by rw [_calculateInvariant, if_pos hsum], Or.inl hsum⟩
    · rcases invariantLoop_cases (amp * balances.length)
          (balances.foldl (· + ·) 0) balances.length balances 255
          (balances.foldl (· + ·) 0) with ⟨d, prev, hok, hstep, hdist⟩ | herr
      · left
        exact ⟨d, by rw [_calculateInvariant, if_neg hsum]; exact hok,
          Or.inr ⟨prev, hstep, hdist⟩⟩
      · right
        rw [_calculateInvariant, if_neg hsum]
        exact herr
  · intro p tin tout a out h
    simp only [StablePool.swapGivenIn, StablePool.givenInCore] at h
    by_cases h0 : ((jsFindIndex p.tokens fun t => t.token.address == tin.address) < 0 ∨
        (jsFindIndex p.tokens fun t => t.token.address == tout.address) < 0)
    · rw [if_pos h0] at h; cases h
    · rw [if_neg h0] at h
      cases hgi : jsGet p.tokens
          (jsFindIndex p.tokens fun t => t.token.address == tin.address) with
      | error e => rw [hgi, bindM_error] at h; cases h
      | ok tIn =>
        rw [hgi, bindM_ok] at h
        by_cases hamt : a.amount > tIn.amount
        · rw [if_pos hamt] at h; cases h
        · rw [if_neg hamt] at h
          cases hs : p.subtractSwapFeeAmount a with
          | error e => rw [hs, bindM_error] at h; cases h
          | ok f =>
            rw [hs, bindM_ok, bindM_ok] at h
            cases hinv : _calculateInvariant p.amp
                (List.map SToken.scale18 p.tokensNoBpt) with
            | error e => rw [hinv, bindM_error] at h; cases h
            | ok d => exact ⟨d, by simpa [stableBalances] using hinv⟩
  · intro p tin tout a out h
    simp only [StablePool.swapGivenOut] at h
    by_cases h0 : ((jsFindIndex p.tokens fun t => t.token.address == tin.address) < 0 ∨
        (jsFindIndex p.tokens fun t => t.token.address == tout.address) < 0)
    · rw [if_pos h0] at h; cases h
    · rw [if_neg h0] at h
      cases hgo : jsGet p.tokens
          (jsFindIndex p.tokens fun t => t.token.address == tout.address) with
      | error e => rw [hgo, bindM_error] at h; cases h
      | ok tOut =>
        rw [hgo, bindM_ok] at h
        by_cases hamt : a.amount > tOut.amount
        · rw [if_pos hamt] at h; cases h
        · rw [if_neg hamt] at h
          cases hinv : _calculateInvariant p.amp
              (List.map SToken.scale18 p.tokensNoBpt) with
          | error e => rw [hinv, bindM_error] at h; cases h
          | ok d => exact ⟨d, by simpa [stableBalances] using hinv⟩

/-- C6 witness: the propagation conjuncts instantiated at successful concrete
swaps of `SP1`, both directions. -/
theorem C6_invariant_convergence_witness :
    (∃ d, _calculateInvariant SP1.amp (stableBalances SP1) = .ok d) ∧
    (∃ d, _calculateInvariant SP1.amp (stableBalances SP1) = .ok d) :=
  ⟨C6_invariant_convergence.2.1 SP1 tokA tokB ⟨tokA, 1000⟩ ⟨tokB, 998⟩ rfl,
   C6_invariant_convergence.2.2 SP1 tokA tokB ⟨tokB, 500⟩ ⟨tokA, 1499⟩ rfl⟩

theorem optionToExcept_some {α} (v : α) (e : Err) :
    optionToExcept (some v) e = .ok v := rfl

theorem optionToExcept_none {α} (e : Err) :
    optionToExcept (none : Option α) e = .error e := rfl

theorem stablePoolMake_ok {id : String} {amp swapFee : Nat}
    {tokens : List SToken} {totalShares : Nat} {p : StablePool}
    (h : StablePool.make id amp swapFee tokens totalShares = .ok p) :
    ∃ address, getPoolAddress id = .ok address ∧
      p = ⟨id, address, amp, swapFee, tokens,
        jsSpliceRemoveOne tokens
          (jsFindIndex tokens (fun t => t.token.address == address)),
        totalShares,
        jsFindIndex tokens (fun t => t.token.address == address)⟩ := by
  simp only [StablePool.make] at h
  cases ha : getPoolAddress id with
  | error e => rw [ha, bindM_error] at h; cases h
  | ok address =>
    rw [ha, bindM_ok, pureM_eq] at h
    injection h with h
    exact ⟨address, rfl, h.symm⟩

theorem stableFromRawPool_ok {r : RawComposableStablePool} {p : StablePool}
    {r' : RawComposableStablePool}
    (h : stableFromRawPool r = .ok (p, r')) :
    ∃ pts totalShares ampBase swapFee,
      mapE (stableTokenOfRaw r.address)
        (jsSortOn (fun t => t.index) r.tokens) = .ok pts ∧
      fastParseEther r.totalShares = some totalShares ∧
      parseBigIntStr r.amp = some ampBase ∧
      fastParseEther r.swapFee = some swapFee ∧
      StablePool.make r.id (ampBase * 1000) swapFee pts totalShares = .ok p ∧
      r' = { r with tokens := jsSortOn (fun t => t.index) r.tokens } := by
  simp only [stableFromRawPool] at h
  cases hmap : mapE (stableTokenOfRaw r.address)
      (jsSortOn (fun t => t.index) r.tokens) with
  | error e => rw [hmap, bindM_error] at h; cases h
  | ok pts =>
    rw [hmap, bindM_ok] at h
    cases hts : fastParseEther r.totalShares with
    | none => rw [hts, optionToExcept_none, bindM_error] at h; cases h
    | some totalShares =>
      rw [hts, optionToExcept_some, bindM_ok] at h
      cases hamp : parseBigIntStr r.amp with
      | none => rw [hamp, optionToExcept_none, bindM_error] at h; cases h
      | some ampBase =>
        rw [hamp, optionToExcept_some, bindM_ok] at h
        cases hfee : fastParseEther r.swapFee with
        | none => rw [hfee, optionToExcept_none, bindM_error] at h; cases h
        | some swapFee =>
          rw [hfee, optionToExcept_some, bindM_ok] at h
          cases hmk : StablePool.make r.id (ampBase * 1000) swapFee pts
              totalShares with
          | error e => rw [hmk, bindM_error] at h; cases h
          | ok sp =>
            rw [hmk, bindM_ok, pureM_eq] at h
            injection h with h
            have h1 : sp = p := congrArg Prod.fst h
            have h2 : { r with tokens := jsSortOn (fun t => t.index) r.tokens } =
                r' := congrArg Prod.snd h
            exact ⟨pts, totalShares, ampBase, swapFee, rfl, rfl, rfl, rfl,
              h1 ▸ hmk, h2.symm⟩

theorem stableTokenOfRaw_bpt {addr : String} {e : RawStableToken} {st : SToken}
    (h : stableTokenOfRaw addr e = .ok st) (haddr : e.address = addr) :
    st.isBpt = true ∧ st.token.address = e.address ∧
    ∃ raw, parseDecimalUnits e.balance e.decimals = some raw ∧
      st.amount = raw := by
  unfold stableTokenOfRaw at h
  split at h
  · cases h
  · split at h
    · cases h
    · simp only [TokenAmount.fromHumanAmount] at h
      cases hpb : parseDecimalUnits e.balance e.decimals with
      | none =>
        rw [hpb, optionToExcept_none, bindM_error, bindM_error] at h
        cases h
      | some raw =>
        rw [hpb, optionToExcept_some, bindM_ok, pureM_eq, bindM_ok] at h
        have htrue : (e.address == addr) = true := by
          rw [haddr]; exact beq_self_eq_true addr
        rw [htrue] at h
        simp only [if_true] at h
        rw [pureM_eq] at h
        injection h with h
        subst h
        exact ⟨rfl, rfl, raw, rfl, rfl⟩

/-- C7: for a composable-stable pool built from a record that lists the
pool's own address as a token entry, that entry is converted into a
liquidity-token member of the snapshot's token list whose held amount is the
parsed record balance and whose virtual balance is the preminted maximum
supply constant minus that held amount; the linear pool's liquidity token is
always the third member of its token list with the analogous virtual
balance. -/
theorem C7_virtual_balance :
    (∀ (r : RawComposableStablePool) (p : StablePool)
      (r' : RawComposableStablePool) (e : RawStableToken),
      stableFromRawPool r = .ok (p, r') → e ∈ r.tokens → e.address = r.address →
      ∃ st ∈ p.tokens, st.isBpt = true ∧ st.token.address = e.address ∧
        ∃ raw, parseDecimalUnits e.balance e.decimals = some raw ∧
          st.amount = raw ∧
          st.virtualBalance = (PREMINTED_STABLE_BPT : Int) - (raw : Int)) ∧
    (∀ (p : LinearPool),
      (p.bptToken.token, p.bptToken.amount) ∈ p.tokensList ∧
      p.bptToken.virtualBalance =
        (MAX_TOKEN_BALANCE : Int) - (p.bptToken.amount : Int)) := by
  constructor
  · intro r p r' e hok hmem haddr
    obtain ⟨pts, tS, aB, sF, hmap, _, _, _, hmk, _⟩ := stableFromRawPool_ok hok
    obtain ⟨address, _, hp⟩ := stablePoolMake_ok hmk
    have hmem' : e ∈ jsSortOn (fun t => t.index) r.tokens :=
      (mem_jsSortOn _ e _).mpr hmem
    obtain ⟨st, hst, hconv⟩ := mapE_ok_mem hmap hmem'
    obtain ⟨hbpt, haddr', raw, hparse, hamt⟩ := stableTokenOfRaw_bpt hconv haddr
    refine ⟨st, ?_, hbpt, haddr', raw, hparse, hamt, ?_⟩
    · rw [hp]
      exact hst
    · rw [SToken.virtualBalance, hamt]
  · intro p
    exact ⟨by simp [LinearPool.tokensList], rfl⟩

/-- C7 witness: the liquidity-token entry of the fixture record `R7` inside
the built pool `P7`, and the linear fixture pool `LP8`. -/
theorem C7_virtual_balance_witness :
    (∃ st ∈ P7.tokens, st.isBpt = true ∧
      st.token.address = (bptAddr1 : String) ∧
      ∃ raw, parseDecimalUnits "500.0" 18 = some raw ∧ st.amount = raw ∧
        st.virtualBalance = (PREMINTED_STABLE_BPT : Int) - (raw : Int)) ∧
    (LP8.bptToken.token, LP8.bptToken.amount) ∈ LP8.tokensList ∧
    LP8.bptToken.virtualBalance =
      (MAX_TOKEN_BALANCE : Int) - (LP8.bptToken.amount : Int) := by
  refine ⟨?_, C7_virtual_balance.2 LP8⟩
  exact C7_virtual_balance.1 R7 P7 R7 ⟨bptAddr1, 18, "500.0", some "1.0", 2⟩
    rfl (by decide) rfl

theorem eraseIdx_of_len_le {α} :
    ∀ {l : List α} {n : Nat}, l.length ≤ n → l.eraseIdx n = l := by
  intro l
  induction l with
  | nil => intro n _; cases n <;> rfl
  | cons x xs ih =>
    intro n h
    cases n with
    | zero => simp at h
    | succ m =>
      simp only [List.eraseIdx]
      rw [ih (by simpa using h)]

theorem jsSpliceRemoveOne_nonneg {α} (l : List α) {i : Int} (h : 0 ≤ i) :
    jsSpliceRemoveOne l i = l.eraseIdx i.toNat := by
  simp only [jsSpliceRemoveOne]
  rw [if_neg (by omega)]
  rcases le_or_lt (l.length : Int) i with hle | hlt
  · rw [min_eq_right hle]
    rw [eraseIdx_of_len_le (by simp), eraseIdx_of_len_le (by omega)]
  · rw [min_eq_left (le_of_lt hlt)]

theorem fromHumanAmount_ok {t : Token} {s : String} {a : TokenAmount}
    (h : TokenAmount.fromHumanAmount t s = .ok a) :
    ∃ raw, parseDecimalUnits s t.decimals = some raw ∧ a = ⟨t, raw⟩ := by
  simp only [TokenAmount.fromHumanAmount] at h
  cases hp : parseDecimalUnits s t.decimals with
  | none => rw [hp, optionToExcept_none, bindM_error] at h; cases h
  | some raw =>
    rw [hp, optionToExcept_some, bindM_ok, pureM_eq] at h
    injection h with h
    exact ⟨raw, rfl, h.symm⟩

theorem linearFromRawPool_ok {r : RawLinearPool} {p : LinearPool}
    {r' : RawLinearPool} (h : linearFromRawPool r = .ok (p, r')) :
    ∃ swapFee mT lt ut mba wT wRate wba bT bba address,
      fastParseEther r.swapFee = some swapFee ∧
      jsGet (jsSortOn (fun t => t.index) r.tokens) r.mainIndex = .ok mT ∧
      TokenAmount.fromHumanAmount ⟨1, mT.address, mT.decimals⟩ r.lowerTarget =
        .ok lt ∧
      TokenAmount.fromHumanAmount ⟨1, mT.address, mT.decimals⟩ r.upperTarget =
        .ok ut ∧
      TokenAmount.fromHumanAmount ⟨1, mT.address, mT.decimals⟩ mT.balance =
        .ok mba ∧
      jsGet (jsSortOn (fun t => t.index) r.tokens) r.wrappedIndex = .ok wT ∧
      fastParseEther (wrappedRateStr wT.priceRate) = some wRate ∧
      TokenAmount.fromHumanAmount ⟨1, wT.address, wT.decimals⟩ wT.balance =
        .ok wba ∧
      jsGet (jsSortOn (fun t => t.index) r.tokens)
        (jsFindIndex (jsSortOn (fun t => t.index) r.tokens)
          (fun t => t.address == r.address)) = .ok bT ∧
      TokenAmount.fromHumanAmount ⟨1, bT.address, bT.decimals⟩ bT.balance =
        .ok bba ∧
      getPoolAddress r.id = .ok address ∧
      p = ⟨r.id, address, r.poolTypeVersion, swapFee, mba,
        ⟨⟨1, wT.address, wT.decimals⟩, wba.amount, wRate⟩,
        ⟨⟨1, bT.address, bT.decimals⟩, bba.amount⟩,
        ⟨swapFee, wRate, lt.scale18, ut.scale18⟩⟩ ∧
      r' = { r with tokens := jsSortOn (fun t => t.index) r.tokens } := by
  simp only [linearFromRawPool, LinearPool.make] at h
  cases hfee : fastParseEther r.swapFee with
  | none => rw [hfee, optionToExcept_none, bindM_error] at h; cases h
  | some swapFee =>
  rw [hfee, optionToExcept_some, bindM_ok] at h
  cases hmT : jsGet (jsSortOn (fun t => t.index) r.tokens) r.mainIndex with
  | error e => rw [hmT, bindM_error] at h; cases h
  | ok mT =>
  rw [hmT, bindM_ok] at h
  cases hlt : TokenAmount.fromHumanAmount ⟨1, mT.address, mT.decimals⟩
      r.lowerTarget with
  | error e => rw [hlt, bindM_error] at h; cases h
  | ok lt =>
  rw [hlt, bindM_ok] at h
  cases hut : TokenAmount.fromHumanAmount ⟨1, mT.address, mT.decimals⟩
      r.upperTarget with
  | error e => rw [hut, bindM_error] at h; cases h
  | ok ut =>
  rw [hut, bindM_ok] at h
  cases hmb : TokenAmount.fromHumanAmount ⟨1, mT.address, mT.decimals⟩
      mT.balance with
  | error e => rw [hmb, bindM_error] at h; cases h
  | ok mba =>
  rw [hmb, bindM_ok] at h
  cases hwT : jsGet (jsSortOn (fun t => t.index) r.tokens) r.wrappedIndex with
  | error e => rw [hwT, bindM_error] at h; cases h
  | ok wT =>
  rw [hwT, bindM_ok] at h
  cases hwr : fastParseEther (wrappedRateStr wT.priceRate) with
  | none => rw [hwr, optionToExcept_none, bindM_error] at h; cases h
  | some wRate =>
  rw [hwr, optionToExcept_some, bindM_ok] at h
  cases hwb : TokenAmount.fromHumanAmount ⟨1, wT.address, wT.decimals⟩
      wT.balance with
  | error e => rw [hwb, bindM_error] at h; cases h
  | ok wba =>
  rw [hwb, bindM_ok] at h
  cases hbT : jsGet (jsSortOn (fun t => t.index) r.tokens)
      (jsFindIndex (jsSortOn (fun t => t.index) r.tokens)
        (fun t => t.address == r.address)) with
  | error e => rw [hbT, bindM_error] at h; cases h
  | ok bT =>
  rw [hbT, bindM_ok] at h
  cases hbb : TokenAmount.fromHumanAmount ⟨1, bT.address, bT.decimals⟩
      bT.balance with
  | error e => rw [hbb, bindM_error] at h; cases h
  | ok bba =>
  rw [hbb, bindM_ok] at h
  cases ha : getPoolAddress r.id with
  | error e => rw [ha, bindM_error] at h; cases h
  | ok address =>
  rw [ha, bindM_ok, pureM_eq, bindM_ok, pureM_eq] at h
  injection h with h
  rw [Prod.mk.injEq] at h
  exact ⟨swapFee, mT, lt, ut, mba, wT, wRate, wba, bT, bba, address,
    rfl, rfl, hlt, hut, hmb, rfl, hwr, hwb, rfl, hbb, rfl, h.1.symm, h.2.symm⟩

theorem stableTokenOfRaw_addr {addr : String} {e : RawStableToken} {st : SToken}
    (h : stableTokenOfRaw addr e = .ok st) : st.token.address = e.address := by
  unfold stableTokenOfRaw at h
  split at h
  · cases h
  · rename_i pr hpr
    split at h
    · cases h
    · simp only [TokenAmount.fromHumanAmount] at h
      cases hpb : parseDecimalUnits e.balance e.decimals with
      | none =>
        rw [hpb, optionToExcept_none, bindM_error, bindM_error] at h
        cases h
      | some raw =>
        rw [hpb, optionToExcept_some, bindM_ok, pureM_eq, bindM_ok] at h
        cases hb : (e.address == addr) with
        | true =>
          rw [hb] at h
          simp only [if_true] at h
          rw [pureM_eq] at h
          injection h with h
          subst h
          rfl
        | false =>
          rw [hb] at h
          simp only [Bool.false_eq_true, if_false] at h
          cases hrt : fastParseEther pr with
          | none => rw [hrt, optionToExcept_none, bindM_error] at h; cases h
          | some rate =>
            rw [hrt, optionToExcept_some, bindM_ok, pureM_eq] at h
            injection h with h
            subst h
            rfl

/-- C8 amended: a stable-pool snapshot holds its tokens ascending in the
record's on-chain index field (the record as left by the call is the stable
sort of its token array, and the snapshot's token addresses follow it
position by position); a linear-pool snapshot instead holds the fixed
sequence main token, wrapped token, liquidity token, selected from the
index-sorted record by the record's main index, wrapped index and own
address; in the pure model no operation rebuilds either list. -/
theorem C8_token_ordering_amended :
    (∀ (r : RawComposableStablePool) (p : StablePool)
      (r' : RawComposableStablePool),
      stableFromRawPool r = .ok (p, r') →
      ascendingBy (fun t => t.index) r'.tokens = true ∧
      p.tokens.map (fun st => st.token.address) =
        r'.tokens.map (fun t => t.address)) ∧
    (∀ (r : RawLinearPool) (p : LinearPool) (r' : RawLinearPool),
      linearFromRawPool r = .ok (p, r') →
      ascendingBy (fun t => t.index) r'.tokens = true ∧
      ∃ mT wT bT, jsGet r'.tokens r.mainIndex = .ok mT ∧
        jsGet r'.tokens r.wrappedIndex = .ok wT ∧
        jsGet r'.tokens (jsFindIndex r'.tokens
          (fun t => t.address == r.address)) = .ok bT ∧
        p.tokensList.map (fun t => t.1.address) =
          [mT.address, wT.address, bT.address]) := by
  constructor
  · intro r p r' hok
    obtain ⟨pts, tS, aB, sF, hmap, _, _, _, hmk, hr'⟩ := stableFromRawPool_ok hok
    obtain ⟨address, _, hp⟩ := stablePoolMake_ok hmk
    subst hr'
    constructor
    · exact ascendingBy_jsSortOn _ _
    · rw [hp]
      exact mapE_map_eq (fun a b hab => stableTokenOfRaw_addr hab) hmap
  · intro r p r' hok
    obtain ⟨sF, mT, lt, ut, mba, wT, wR, wba, bT, bba, address,
      _, hmT, _, _, _, hwT, _, _, hbT, _, _, hp, hr'⟩ := linearFromRawPool_ok hok
    subst hr'
    refine ⟨ascendingBy_jsSortOn _ _, mT, wT, bT, hmT, hwT, hbT, ?_⟩
    rw [hp]
    obtain ⟨raw, _, hmba⟩ := fromHumanAmount_ok
      (show TokenAmount.fromHumanAmount ⟨1, mT.address, mT.decimals⟩ mT.balance =
        .ok mba by assumption)
    rw [hmba]
    rfl

/-- C8 witness: the orderings at the fixture records `R7` (stable, ascending)
and `LR8` (linear, the fixed main-wrapped-liquidity sequence). -/
theorem C8_token_ordering_witness :
    (ascendingBy (fun t => t.index) R7.tokens = true ∧
      P7.tokens.map (fun st => st.token.address) =
        R7.tokens.map (fun t => t.address)) ∧
    (ascendingBy (fun t => t.index) LR8.tokens = true ∧
      ∃ mT wT bT, jsGet LR8.tokens LR8.mainIndex = .ok mT ∧
        jsGet LR8.tokens LR8.wrappedIndex = .ok wT ∧
        jsGet LR8.tokens (jsFindIndex LR8.tokens
          (fun t => t.address == LR8.address)) = .ok bT ∧
        LP8.tokensList.map (fun t => t.1.address) =
          [mT.address, wT.address, bT.address]) :=
  ⟨C8_token_ordering_amended.1 R7 P7 R7 rfl,
   C8_token_ordering_amended.2 LR8 LP8 LR8 rfl⟩

/-- C9 amended: the constructor leaves its input token array unchanged as the
snapshot's token list and builds the liquidity-token-free list as a new
sequence (a splice of a copy, equal to erasing the liquidity-token index when
one was found); but `fromRawPool` does mutate its caller's record, leaving
the record's token array sorted in place. -/
theorem C9_mutation_amended :
    (∀ (id : String) (amp swapFee : Nat) (tokens : List SToken)
      (totalShares : Nat) (p : StablePool),
      StablePool.make id amp swapFee tokens totalShares = .ok p →
      p.tokens = tokens ∧
      p.tokensNoBpt = jsSpliceRemoveOne tokens p.bptIndex ∧
      (0 ≤ p.bptIndex → p.tokensNoBpt = tokens.eraseIdx p.bptIndex.toNat)) ∧
    (∀ (r : RawComposableStablePool) (p : StablePool)
      (r' : RawComposableStablePool),
      stableFromRawPool r = .ok (p, r') →
      r' = { r with tokens := jsSortOn (fun t => t.index) r.tokens }) := by
  constructor
  · intro id amp swapFee tokens totalShares p hmk
    obtain ⟨address, _, hp⟩ := stablePoolMake_ok hmk
    subst hp
    exact ⟨rfl, rfl, fun h0 => jsSpliceRemoveOne_nonneg tokens h0⟩
  · intro r p r' hok
    obtain ⟨pts, tS, aB, sF, _, _, _, _, _, hr'⟩ := stableFromRawPool_ok hok
    exact hr'

/-- C9 witness: the constructor-copy conclusions at the fixture pool `SP1`
and the in-place sort of the out-of-order record `SR9`. -/
theorem C9_mutation_witness :
    (SP1.tokens = SP1tokens ∧
      SP1.tokensNoBpt = jsSpliceRemoveOne SP1tokens SP1.bptIndex ∧
      (0 ≤ SP1.bptIndex →
        SP1.tokensNoBpt = SP1tokens.eraseIdx SP1.bptIndex.toNat)) ∧
    R7 = { SR9 with tokens := jsSortOn (fun t => t.index) SR9.tokens } :=
  ⟨C9_mutation_amended.1 poolId1 1000000 0 SP1tokens 1000000 SP1 rfl,
   C9_mutation_amended.2 SR9 P7 R7 rfl⟩

theorem stableTokenOfRaw_bad {addr : String} {e : RawStableToken}
    (hbad : e.priceRate = none ∨ e.priceRate = some "") :
    ∀ b, stableTokenOfRaw addr e ≠ .ok b := by
  intro b h
  unfold stableTokenOfRaw at h
  split at h
  · cases h
  · rename_i pr heq
    rcases hbad with hpr | hpr
    · rw [hpr] at heq; cases heq
    · rw [hpr] at heq
      injection heq with heq
      split at h
      · cases h
      · rename_i h0
        exact h0 heq.symm

theorem stableTokenOfRaw_rate {addr : String} {e : RawStableToken} {st : SToken}
    (h : stableTokenOfRaw addr e = .ok st) :
    ∃ s, e.priceRate = some s ∧ s ≠ "" := by
  unfold stableTokenOfRaw at h
  split at h
  · cases h
  · rename_i pr heq
    split at h
    · cases h
    · rename_i h0
      exact ⟨pr, heq, h0⟩

/-- C10: building a stable pool from a record in which any token entry,
including the liquidity-token entry, has a missing or empty price rate never
succeeds; and when the build succeeds, every entry carried a nonempty price
rate and the stored amplification parameter is the record's parsed
amplification times one thousand. -/
theorem C10_from_raw_validation :
    (∀ (r : RawComposableStablePool) (e : RawStableToken),
      e ∈ r.tokens → (e.priceRate = none ∨ e.priceRate = some "") →
      ∀ res, stableFromRawPool r ≠ .ok res) ∧
    (∀ (r : RawComposableStablePool) (p : StablePool)
      (r' : RawComposableStablePool),
      stableFromRawPool r = .ok (p, r') →
      (∀ e ∈ r.tokens, ∃ s, e.priceRate = some s ∧ s ≠ "") ∧
      ∃ ampBase, parseBigIntStr r.amp = some ampBase ∧
        p.amp = ampBase * 1000) := by
  constructor
  · intro r e hmem hbad res hok
    obtain ⟨pts, tS, aB, sF, hmap, _⟩ := stableFromRawPool_ok hok
    exact mapE_bad_not_ok (stableTokenOfRaw_bad hbad)
      ((mem_jsSortOn _ e _).mpr hmem) pts hmap
  · intro r p r' hok
    obtain ⟨pts, tS, aB, sF, hmap, _, hamp, _, hmk, _⟩ := stableFromRawPool_ok hok
    obtain ⟨address, _, hp⟩ := stablePoolMake_ok hmk
    constructor
    · intro e hmem
      obtain ⟨st, _, hconv⟩ := mapE_ok_mem hmap ((mem_jsSortOn _ e _).mpr hmem)
      exact stableTokenOfRaw_rate hconv
    · exact ⟨aB, hamp, by rw [hp]⟩

/-- C10 witness: the fixture record with an empty price rate is refused, and
the successful build of `R7` had nonempty rates and amplification two
thousand. -/
theorem C10_from_raw_validation_witness :
    stableFromRawPool R10bad ≠ .ok (P7, R7) ∧
    (∃ s, (⟨"0xa1", 18, "1000.0", some "1.0", 0⟩ : RawStableToken).priceRate =
      some s ∧ s ≠ "") ∧
    (∃ ampBase, parseBigIntStr R7.amp = some ampBase ∧
      P7.amp = ampBase * 1000) := by
  refine ⟨?_, ?_, ?_⟩
  · exact C10_from_raw_validation.1 R10bad ⟨"0xb2", 18, "2000.0", some "", 1⟩
      (by decide) (Or.inr rfl) (P7, R7)
  · exact (C10_from_raw_validation.2 R7 P7 R7 rfl).1
      ⟨"0xa1", 18, "1000.0", some "1.0", 0⟩ (by decide)
  · exact (C10_from_raw_validation.2 R7 P7 R7 rfl).2
